import Mathlib

unseal Rat.add Rat.sub Rat.mul Rat.inv

/-!
Verification of the canvas document store and scene reconciliation logic of
the `canvasss` repository (src/src/store/canvasStore.ts and
src/src/components/Canvas.tsx).

Embedding conventions:
* JavaScript numbers are embedded as rationals (`ℚ`); all arithmetic the
  verified claims exercise (sums, means, halving, the 20 px gap) is exact
  in both floats and rationals for the inputs considered.
* `nanoid()` is embedded as a fresh-counter id supply (`nextId`), which
  realises the freshness the store relies on.
* History entries carry a `timestamp: Date.now()` in the source; the
  timestamp is never read by any store operation, so history entries are
  embedded as the node snapshot alone.
* `JSON.parse(JSON.stringify(...))` deep copies are identities on the
  immutable Lean values; aliasing cannot occur in the embedding.
-/

/-- Discriminant `type ∈ {image, video, group, text}` of a canvas node
(services/types.ts). -/
inductive NodeKind where
  | image
  | video
  | group
  | text
deriving DecidableEq, Inhabited

/-- A canvas node (`CanvasNode` of services/types.ts): identity, type
discriminant, optional asset back-reference and url, geometry, rotation,
opacity, lock flag and paint order. -/
structure CanvasNode where
  id : Nat
  type : NodeKind
  assetId : Option Nat
  url : Option String
  x : ℚ
  y : ℚ
  width : ℚ
  height : ℚ
  rotation : ℚ
  opacity : ℚ
  locked : Bool
  zIndex : Nat
deriving DecidableEq, Inhabited

/-- The argument of `addNode`: a node without `id` and `zIndex`
(`Omit<CanvasNode, 'id' | 'zIndex'>`). -/
structure NodeData where
  type : NodeKind
  assetId : Option Nat
  url : Option String
  x : ℚ
  y : ℚ
  width : ℚ
  height : ℚ
  rotation : ℚ
  opacity : ℚ
  locked : Bool
deriving DecidableEq, Inhabited

/-- A `Partial<CanvasNode>` argument of `updateNode`: each field is either
absent (kept) or present (overwritten by the object spread
`{ ...node, ...updates }`). -/
structure NodeUpdate where
  id : Option Nat := none
  type : Option NodeKind := none
  assetId : Option (Option Nat) := none
  url : Option (Option String) := none
  x : Option ℚ := none
  y : Option ℚ := none
  width : Option ℚ := none
  height : Option ℚ := none
  rotation : Option ℚ := none
  opacity : Option ℚ := none
  locked : Option Bool := none
  zIndex : Option Nat := none
deriving DecidableEq, Inhabited

/-- The object spread `{ ...node, ...updates }` of `updateNode`. -/
def applyNodeUpdate (u : NodeUpdate) (n : CanvasNode) : CanvasNode :=
  { id := u.id.getD n.id
    type := u.type.getD n.type
    assetId := u.assetId.getD n.assetId
    url := u.url.getD n.url
    x := u.x.getD n.x
    y := u.y.getD n.y
    width := u.width.getD n.width
    height := u.height.getD n.height
    rotation := u.rotation.getD n.rotation
    opacity := u.opacity.getD n.opacity
    locked := u.locked.getD n.locked
    zIndex := u.zIndex.getD n.zIndex }

/-- The slice of the zustand store state that the canvas mutations and the
history engine read and write (canvasStore.ts).  `historyIndex` starts at
`-1`, hence is an integer.  `nextId` is the fresh-id supply embedding
`nanoid()`; `error` is the store's user-visible error field. -/
structure StoreState where
  nodes : List CanvasNode
  selectedNodeIds : List Nat
  history : List (List CanvasNode)
  historyIndex : Int
  nextId : Nat
  error : Option String
deriving DecidableEq, Inhabited

/-- The store's initial state (`nodes: [], selectedNodeIds: [], history: [],
historyIndex: -1`). -/
def initialState : StoreState :=
  { nodes := [], selectedNodeIds := [], history := [], historyIndex := -1,
    nextId := 0, error := none }

/-- The body of `saveHistory` acting on the history list:
`history.slice(0, historyIndex + 1)`, push of the current snapshot, and
eviction of the oldest entry (`shift()`) when the length exceeds 50. -/
def pushSnapshot (hist : List (List CanvasNode)) (idx : Int)
    (snap : List CanvasNode) : List (List CanvasNode) :=
  let h := hist.take (idx + 1).toNat ++ [snap]
  if 50 < h.length then h.tail else h

/-- `saveHistory()`: truncate the redo tail, append a deep copy of the
current nodes, evict the oldest entry beyond 50, and point `historyIndex`
at the new last entry. -/
def saveHistory (s : StoreState) : StoreState :=
  let h := pushSnapshot s.history s.historyIndex s.nodes
  { s with history := h, historyIndex := (h.length : Int) - 1 }

/-- `undo()`: when `historyIndex > 0`, step back one entry, restore that
snapshot and clear the selection; otherwise a silent no-op. -/
def undo (s : StoreState) : StoreState :=
  if 0 < s.historyIndex then
    let newIndex := s.historyIndex - 1
    { s with nodes := s.history.getD newIndex.toNat []
             historyIndex := newIndex
             selectedNodeIds := [] }
  else s

/-- `redo()`: when `historyIndex < history.length - 1`, step forward one
entry, restore that snapshot and clear the selection; otherwise a silent
no-op. -/
def redo (s : StoreState) : StoreState :=
  if s.historyIndex < (s.history.length : Int) - 1 then
    let newIndex := s.historyIndex + 1
    { s with nodes := s.history.getD newIndex.toNat []
             historyIndex := newIndex
             selectedNodeIds := [] }
  else s

/-- `addNode(node)`: assign a fresh id and `zIndex = nodes.length`, append,
then capture history. -/
def addNode (d : NodeData) (s : StoreState) : StoreState :=
  let newNode : CanvasNode :=
    { id := s.nextId, type := d.type, assetId := d.assetId, url := d.url,
      x := d.x, y := d.y, width := d.width, height := d.height,
      rotation := d.rotation, opacity := d.opacity, locked := d.locked,
      zIndex := s.nodes.length }
  saveHistory { s with nodes := s.nodes ++ [newNode], nextId := s.nextId + 1 }

/-- `updateNode(id, updates)`: merge the updates into the node whose id
matches (all others unchanged), then capture history. -/
def updateNode (id : Nat) (u : NodeUpdate) (s : StoreState) : StoreState :=
  saveHistory
    { s with nodes := s.nodes.map fun n =>
        if n.id = id then applyNodeUpdate u n else n }

/-- `deleteNode(id)`: drop the node and prune the id from the selection,
then capture history. -/
def deleteNode (id : Nat) (s : StoreState) : StoreState :=
  saveHistory
    { s with nodes := s.nodes.filter fun n => n.id ≠ id
             selectedNodeIds := s.selectedNodeIds.filter fun nid => nid ≠ id }

/-- `deleteSelectedNodes()`: drop every selected node, empty the selection,
then capture history. -/
def deleteSelectedNodes (s : StoreState) : StoreState :=
  saveHistory
    { s with nodes := s.nodes.filter fun n => !(s.selectedNodeIds.contains n.id)
             selectedNodeIds := [] }

/-- `selectNode(id, multi)`: multi toggles membership, otherwise the
selection becomes exactly `[id]`. -/
def selectNode (id : Nat) (multi : Bool) (s : StoreState) : StoreState :=
  if multi then
    if s.selectedNodeIds.contains id then
      { s with selectedNodeIds := s.selectedNodeIds.filter fun nid => nid ≠ id }
    else
      { s with selectedNodeIds := s.selectedNodeIds ++ [id] }
  else
    { s with selectedNodeIds := [id] }

/-- `selectNodes(ids)`: replace the selection wholesale, no validation. -/
def selectNodes (ids : List Nat) (s : StoreState) : StoreState :=
  { s with selectedNodeIds := ids }

/-- `clearSelection()`. -/
def clearSelection (s : StoreState) : StoreState :=
  { s with selectedNodeIds := [] }

/-- `state.nodes.filter(node => state.selectedNodeIds.includes(node.id))`:
the selected nodes enumerated in document (node list) order, which is the
order both `duplicateSelected` and `alignNodes` traverse. -/
def selectedExisting (s : StoreState) : List CanvasNode :=
  s.nodes.filter fun n => s.selectedNodeIds.contains n.id

/-- The copies built by `duplicateSelected`: for the `i`-th selected node a
copy with a fresh id, offset `(+20, +20)`, and
`zIndex = nodes.length + i`.  (In the source the index is
`selectedNodes.indexOf(node)` under JavaScript reference equality, which
is exactly the iteration index.) -/
def duplicatedCopies (s : StoreState) : List CanvasNode :=
  (selectedExisting s).enum.map fun p =>
    { p.2 with id := s.nextId + p.1, x := p.2.x + 20, y := p.2.y + 20,
               zIndex := s.nodes.length + p.1 }

/-- `duplicateSelected()`: append the copies, select exactly the new ids,
then capture history once for the whole batch. -/
def duplicateSelected (s : StoreState) : StoreState :=
  let newNodes := duplicatedCopies s
  saveHistory
    { s with nodes := s.nodes ++ newNodes
             selectedNodeIds := newNodes.map (·.id)
             nextId := s.nextId + newNodes.length }

/-- Gap constant of `alignNodes` (`const GAP = 20`). -/
def GAP : ℚ := 20

/-- `alignment: 'row' | 'column' | 'grid'`. -/
inductive AlignKind where
  | row
  | column
  | grid
deriving DecidableEq, Inhabited

/-- Replace the element at the first index whose id matches
(`updatedNodes[updatedNodes.findIndex(n => n.id === node.id)] = ...`);
identity when no id matches. -/
def setFirstById (id : Nat) (f : CanvasNode → CanvasNode) :
    List CanvasNode → List CanvasNode
  | [] => []
  | n :: ns => if n.id = id then f n :: ns else n :: setFirstById id f ns

/-- `selectedNodes.sort((a, b) => a.x - b.x)`: stable ascending sort by
`x`, embedded by the (stable) insertion sort. -/
def sortByX (l : List CanvasNode) : List CanvasNode :=
  List.insertionSort (fun p q => p.x ≤ q.x) l

/-- `selectedNodes.sort((a, b) => a.y - b.y)`: stable ascending sort by
`y`. -/
def sortByY (l : List CanvasNode) : List CanvasNode :=
  List.insertionSort (fun p q => p.y ≤ q.y) l

/-- One step of the row walk: place the node at the running cursor with the
shared baseline `avgY`, then advance the cursor by `width + GAP`. -/
def rowPlace (avgY : ℚ) (p : List CanvasNode × ℚ) (node : CanvasNode) :
    List CanvasNode × ℚ :=
  (setFirstById node.id (fun m => { m with x := p.2, y := avgY }) p.1,
   p.2 + node.width + GAP)

/-- One step of the column walk: place the node at the running cursor with
the shared vertical `avgX`, then advance the cursor by `height + GAP`. -/
def colPlace (avgX : ℚ) (p : List CanvasNode × ℚ) (node : CanvasNode) :
    List CanvasNode × ℚ :=
  (setFirstById node.id (fun m => { m with x := avgX, y := p.2 }) p.1,
   p.2 + node.height + GAP)

/-- Fuel-based search for the least `k` with `n ≤ k * k` (structural, so
the kernel can evaluate it). -/
def ceilSqrtLoop (n : Nat) : Nat → Nat → Nat
  | 0, k => k
  | fuel + 1, k => if n ≤ k * k then k else ceilSqrtLoop n fuel (k + 1)

/-- `Math.ceil(Math.sqrt(n))` for a natural `n`: the least `k` with
`n ≤ k * k` (proved in `ceilSqrt_spec`), which is the ceiling of the real
square root. -/
def ceilSqrt (n : Nat) : Nat := ceilSqrtLoop n n 0

/-- `Math.max(...)` over a list of rationals (used on the nonempty lists of
selected widths and heights). -/
def listMax : List ℚ → ℚ
  | [] => 0
  | [a] => a
  | a :: b :: rest => max a (listMax (b :: rest))

/-- One step of the grid placement: node with enumeration index `p.1` goes
to column `p.1 % numCols` and row `p.1 / numCols`, centered in the uniform
cell. -/
def gridPlace (startX startY maxW maxH : ℚ) (numCols : Nat)
    (acc : List CanvasNode) (p : Nat × CanvasNode) : List CanvasNode :=
  setFirstById p.2.id
    (fun m =>
      { m with
        x := startX + ((p.1 % numCols : Nat) : ℚ) * (maxW + GAP)
              + (maxW - p.2.width) / 2
        y := startY + ((p.1 / numCols : Nat) : ℚ) * (maxH + GAP)
              + (maxH - p.2.height) / 2 }) acc

/-- The `updatedNodes` list computed inside `alignNodes` for each of the
three alignment branches (row / column / grid exactly as in the source). -/
def alignedNodes (a : AlignKind) (s : StoreState) : List CanvasNode :=
  let sel := selectedExisting s
  match a with
  | .row =>
      let ss := sortByX sel
      let avgY := ((ss.map (·.y)).sum) / (ss.length : ℚ)
      (ss.foldl (rowPlace avgY) (s.nodes, ss.headI.x)).1
  | .column =>
      let ss := sortByY sel
      let avgX := ((ss.map (·.x)).sum) / (ss.length : ℚ)
      (ss.foldl (colPlace avgX) (s.nodes, ss.headI.y)).1
  | .grid =>
      let numCols := ceilSqrt sel.length
      let maxW := listMax (sel.map (·.width))
      let maxH := listMax (sel.map (·.height))
      sel.enum.foldl (gridPlace sel.headI.x sel.headI.y maxW maxH numCols)
        s.nodes

/-- `alignNodes(alignment)`: no-op when fewer than 2 selected nodes exist;
otherwise rewrite the selected nodes' positions and capture history once. -/
def alignNodes (a : AlignKind) (s : StoreState) : StoreState :=
  if (selectedExisting s).length < 2 then s
  else saveHistory { s with nodes := alignedNodes a s }

/-- The store operations the verified claims quantify over. -/
inductive StoreOp where
  | addNode (d : NodeData)
  | updateNode (id : Nat) (u : NodeUpdate)
  | deleteNode (id : Nat)
  | deleteSelectedNodes
  | duplicateSelected
  | alignNodes (a : AlignKind)
  | undo
  | redo
  | selectNode (id : Nat) (multi : Bool)
  | selectNodes (ids : List Nat)
  | clearSelection
deriving DecidableEq, Inhabited

/-- Run one store operation. -/
def applyOp (op : StoreOp) (s : StoreState) : StoreState :=
  match op with
  | .addNode d => addNode d s
  | .updateNode id u => updateNode id u s
  | .deleteNode id => deleteNode id s
  | .deleteSelectedNodes => deleteSelectedNodes s
  | .duplicateSelected => duplicateSelected s
  | .alignNodes a => alignNodes a s
  | .undo => undo s
  | .redo => redo s
  | .selectNode id multi => selectNode id multi s
  | .selectNodes ids => selectNodes ids s
  | .clearSelection => clearSelection s

/-- Run a sequence of store operations left to right. -/
def applyOps (ops : List StoreOp) (s : StoreState) : StoreState :=
  ops.foldl (fun t op => applyOp op t) s

/-- Whether running `op` in state `s` reaches the `saveHistory()` call:
the node-collection mutators always do, `alignNodes` only when at least
two selected nodes exist, and undo/redo/selection operations never do. -/
def callsSaveHistory (op : StoreOp) (s : StoreState) : Bool :=
  match op with
  | .addNode _ => true
  | .updateNode _ _ => true
  | .deleteNode _ => true
  | .deleteSelectedNodes => true
  | .duplicateSelected => true
  | .alignNodes _ => decide (2 ≤ (selectedExisting s).length)
  | _ => false

/-! ### History invariant (claim C1 groundwork) -/

/-- The history invariant of the store: the log is bounded at 50 entries,
`historyIndex` is `-1` exactly while the log is empty, and otherwise is a
valid index into the log. -/
def HistoryInv (s : StoreState) : Prop :=
  s.history.length ≤ 50 ∧
  (s.history = [] → s.historyIndex = -1) ∧
  (s.history ≠ [] →
    0 ≤ s.historyIndex ∧ s.historyIndex < (s.history.length : Int))

theorem pushSnapshot_exists_concat (hist : List (List CanvasNode)) (idx : Int)
    (snap : List CanvasNode) :
    ∃ t, pushSnapshot hist idx snap = t ++ [snap] := by
  unfold pushSnapshot
  dsimp only
  by_cases hlen : 50 < (hist.take (idx + 1).toNat ++ [snap]).length
  · rw [if_pos hlen]
    cases h : hist.take (idx + 1).toNat with
    | nil =>
        rw [h] at hlen
        simp at hlen
    | cons a t => exact ⟨t, by simp [h]⟩
  · rw [if_neg hlen]
    exact ⟨_, rfl⟩

theorem pushSnapshot_ne_nil (hist : List (List CanvasNode)) (idx : Int)
    (snap : List CanvasNode) : pushSnapshot hist idx snap ≠ [] := by
  obtain ⟨t, ht⟩ := pushSnapshot_exists_concat hist idx snap
  simp [ht]

theorem pushSnapshot_length_le (hist : List (List CanvasNode)) (idx : Int)
    (snap : List CanvasNode) (h : hist.length ≤ 50) :
    (pushSnapshot hist idx snap).length ≤ 50 := by
  unfold pushSnapshot
  dsimp only
  have htake : (hist.take (idx + 1).toNat).length ≤ hist.length := by
    rw [List.length_take]
    omega
  by_cases hlen : 50 < (hist.take (idx + 1).toNat ++ [snap]).length
  · rw [if_pos hlen]
    simp only [List.length_tail, List.length_append, List.length_singleton]
    omega
  · rw [if_neg hlen]
    simp only [List.length_append, List.length_singleton] at hlen ⊢
    omega

theorem concat_getD_length {α : Type} (t : List α) (a d : α) :
    (t ++ [a]).getD t.length d = a := by
  induction t with
  | nil => rfl
  | cons b t ih =>
      simp only [List.cons_append, List.length_cons, List.getD_cons_succ]
      exact ih

theorem saveHistory_history (s : StoreState) :
    (saveHistory s).history = pushSnapshot s.history s.historyIndex s.nodes :=
  rfl

theorem saveHistory_historyIndex (s : StoreState) :
    (saveHistory s).historyIndex = ((saveHistory s).history.length : Int) - 1 :=
  rfl

theorem saveHistory_nodes (s : StoreState) : (saveHistory s).nodes = s.nodes :=
  rfl

theorem saveHistory_selectedNodeIds (s : StoreState) :
    (saveHistory s).selectedNodeIds = s.selectedNodeIds := rfl

theorem saveHistory_history_ne_nil (s : StoreState) :
    (saveHistory s).history ≠ [] :=
  pushSnapshot_ne_nil _ _ _

theorem saveHistory_snapshot (s : StoreState) :
    (saveHistory s).history.getD ((saveHistory s).history.length - 1) [] =
      s.nodes := by
  obtain ⟨t, ht⟩ := pushSnapshot_exists_concat s.history s.historyIndex s.nodes
  have ht' : (saveHistory s).history = t ++ [s.nodes] := ht
  rw [ht']
  simp only [List.length_append, List.length_singleton, Nat.add_sub_cancel]
  exact concat_getD_length t _ _

theorem saveHistory_historyInv (s : StoreState)
    (h : s.history.length ≤ 50) : HistoryInv (saveHistory s) := by
  have hne := saveHistory_history_ne_nil s
  have hlen : (saveHistory s).history.length ≤ 50 := by
    rw [saveHistory_history]
    exact pushSnapshot_length_le _ _ _ h
  have hpos : 0 < (saveHistory s).history.length :=
    List.length_pos.mpr hne
  refine ⟨hlen, fun hnil => absurd hnil hne, fun _ => ?_⟩
  rw [saveHistory_historyIndex]
  omega

theorem undo_history (s : StoreState) : (undo s).history = s.history := by
  unfold undo
  by_cases h : 0 < s.historyIndex
  · rw [if_pos h]
  · rw [if_neg h]

theorem undo_historyIndex (s : StoreState) :
    (undo s).historyIndex =
      if 0 < s.historyIndex then s.historyIndex - 1 else s.historyIndex := by
  unfold undo
  by_cases h : 0 < s.historyIndex
  · rw [if_pos h, if_pos h]
  · rw [if_neg h, if_neg h]

theorem redo_history (s : StoreState) : (redo s).history = s.history := by
  unfold redo
  by_cases h : s.historyIndex < (s.history.length : Int) - 1
  · rw [if_pos h]
  · rw [if_neg h]

theorem redo_historyIndex (s : StoreState) :
    (redo s).historyIndex =
      if s.historyIndex < (s.history.length : Int) - 1 then s.historyIndex + 1
      else s.historyIndex := by
  unfold redo
  by_cases h : s.historyIndex < (s.history.length : Int) - 1
  · rw [if_pos h, if_pos h]
  · rw [if_neg h, if_neg h]

theorem selectNode_history (id : Nat) (multi : Bool) (s : StoreState) :
    (selectNode id multi s).history = s.history := by
  unfold selectNode
  split
  · split <;> rfl
  · rfl

theorem selectNode_historyIndex (id : Nat) (multi : Bool) (s : StoreState) :
    (selectNode id multi s).historyIndex = s.historyIndex := by
  unfold selectNode
  split
  · split <;> rfl
  · rfl

theorem alignNodes_eq_of_small (a : AlignKind) (s : StoreState)
    (h : (selectedExisting s).length < 2) : alignNodes a s = s := by
  unfold alignNodes
  rw [if_pos h]

theorem alignNodes_eq_of_large (a : AlignKind) (s : StoreState)
    (h : ¬ (selectedExisting s).length < 2) :
    alignNodes a s = saveHistory { s with nodes := alignedNodes a s } := by
  unfold alignNodes
  rw [if_neg h]

theorem historyInv_preserved (op : StoreOp) (s : StoreState)
    (h : HistoryInv s) : HistoryInv (applyOp op s) := by
  obtain ⟨hlen, hemp, hne⟩ := h
  cases op with
  | addNode d => exact saveHistory_historyInv _ hlen
  | updateNode id u => exact saveHistory_historyInv _ hlen
  | deleteNode id => exact saveHistory_historyInv _ hlen
  | deleteSelectedNodes => exact saveHistory_historyInv _ hlen
  | duplicateSelected => exact saveHistory_historyInv _ hlen
  | alignNodes a =>
      show HistoryInv (alignNodes a s)
      by_cases hsel : (selectedExisting s).length < 2
      · rw [alignNodes_eq_of_small a s hsel]
        exact ⟨hlen, hemp, hne⟩
      · rw [alignNodes_eq_of_large a s hsel]
        exact saveHistory_historyInv _ hlen
  | undo =>
      show HistoryInv (undo s)
      refine ⟨?_, ?_, ?_⟩
      · rw [undo_history]; exact hlen
      · rw [undo_history, undo_historyIndex]
        intro hnil
        have h0 := hemp hnil
        rw [if_neg (by omega)]
        exact h0
      · rw [undo_history, undo_historyIndex]
        intro hnil
        have hb := hne hnil
        by_cases hidx : 0 < s.historyIndex
        · rw [if_pos hidx]
          omega
        · rw [if_neg hidx]
          omega
  | redo =>
      show HistoryInv (redo s)
      refine ⟨?_, ?_, ?_⟩
      · rw [redo_history]; exact hlen
      · rw [redo_history, redo_historyIndex]
        intro hnil
        have h0 := hemp hnil
        have hl : s.history.length = 0 := by rw [hnil]; rfl
        rw [if_neg (by omega)]
        exact h0
      · rw [redo_history, redo_historyIndex]
        intro hnil
        have hb := hne hnil
        by_cases hidx : s.historyIndex < (s.history.length : Int) - 1
        · rw [if_pos hidx]
          omega
        · rw [if_neg hidx]
          omega
  | selectNode id multi =>
      show HistoryInv (selectNode id multi s)
      refine ⟨?_, ?_, ?_⟩
      · rw [selectNode_history]; exact hlen
      · rw [selectNode_history, selectNode_historyIndex]; exact hemp
      · rw [selectNode_history, selectNode_historyIndex]; exact hne
  | selectNodes ids => exact ⟨hlen, hemp, hne⟩
  | clearSelection => exact ⟨hlen, hemp, hne⟩

theorem applyOps_historyInv (ops : List StoreOp) (s : StoreState)
    (h : HistoryInv s) : HistoryInv (applyOps ops s) := by
  induction ops generalizing s with
  | nil => exact h
  | cons op ops ih => exact ih (applyOp op s) (historyInv_preserved op s h)

theorem initialState_historyInv : HistoryInv initialState :=
  ⟨by decide, fun _ => rfl, fun hne => absurd rfl hne⟩

theorem callsSaveHistory_post_index (op : StoreOp) (s : StoreState)
    (hsave : callsSaveHistory op s = true) :
    (applyOp op s).historyIndex =
      ((applyOp op s).history.length : Int) - 1 := by
  cases op with
  | addNode d => exact saveHistory_historyIndex _
  | updateNode id u => exact saveHistory_historyIndex _
  | deleteNode id => exact saveHistory_historyIndex _
  | deleteSelectedNodes => exact saveHistory_historyIndex _
  | duplicateSelected => exact saveHistory_historyIndex _
  | alignNodes a =>
      have hsel : ¬ (selectedExisting s).length < 2 := by
        simp only [callsSaveHistory, decide_eq_true_eq] at hsave
        omega
      show (alignNodes a s).historyIndex = ((alignNodes a s).history.length : Int) - 1
      rw [alignNodes_eq_of_large a s hsel]
      exact saveHistory_historyIndex _
  | undo => simp [callsSaveHistory] at hsave
  | redo => simp [callsSaveHistory] at hsave
  | selectNode id multi => simp [callsSaveHistory] at hsave
  | selectNodes ids => simp [callsSaveHistory] at hsave
  | clearSelection => simp [callsSaveHistory] at hsave

/-- A sample node payload used by the concrete witnesses. -/
def sampleNodeData : NodeData :=
  { type := .image, assetId := none, url := some "a.png", x := 1, y := 2,
    width := 3, height := 4, rotation := 0, opacity := 1, locked := false }

/-- C1: after any sequence of store operations starting from the initial
store, `history.length ≤ 50`, and whenever the history is non-empty
`0 ≤ historyIndex < history.length`; moreover any operation that reaches
the `saveHistory()` call (every node-collection mutator; `alignNodes` only
when at least two selected nodes exist) leaves
`historyIndex = history.length - 1`. -/
theorem c1_history_bound_and_index_invariant (ops : List StoreOp) :
    ((applyOps ops initialState).history.length ≤ 50 ∧
      ((applyOps ops initialState).history ≠ [] →
        0 ≤ (applyOps ops initialState).historyIndex ∧
        (applyOps ops initialState).historyIndex <
          ((applyOps ops initialState).history.length : Int))) ∧
    (∀ op : StoreOp,
      callsSaveHistory op (applyOps ops initialState) = true →
      (applyOp op (applyOps ops initialState)).historyIndex =
        ((applyOp op (applyOps ops initialState)).history.length : Int) - 1) := by
  have h := applyOps_historyInv ops initialState initialState_historyInv
  exact ⟨⟨h.1, h.2.2⟩, fun op hop => callsSaveHistory_post_index op _ hop⟩

/-- Witness for C1 at a concrete operation sequence. -/
theorem c1_history_bound_and_index_invariant_witness :
    ((applyOps [StoreOp.addNode sampleNodeData] initialState).history.length ≤ 50 ∧
      ((applyOps [StoreOp.addNode sampleNodeData] initialState).history ≠ [] →
        0 ≤ (applyOps [StoreOp.addNode sampleNodeData] initialState).historyIndex ∧
        (applyOps [StoreOp.addNode sampleNodeData] initialState).historyIndex <
          ((applyOps [StoreOp.addNode sampleNodeData] initialState).history.length : Int))) ∧
    (applyOp StoreOp.deleteSelectedNodes
        (applyOps [StoreOp.addNode sampleNodeData] initialState)).historyIndex =
      ((applyOp StoreOp.deleteSelectedNodes
        (applyOps [StoreOp.addNode sampleNodeData] initialState)).history.length : Int) - 1 :=
  ⟨(c1_history_bound_and_index_invariant [StoreOp.addNode sampleNodeData]).1,
   (c1_history_bound_and_index_invariant [StoreOp.addNode sampleNodeData]).2
     StoreOp.deleteSelectedNodes rfl⟩

theorem roundtrip_of_top (u : StoreState) (hne : u.history ≠ [])
    (hidx : u.historyIndex = (u.history.length : Int) - 1)
    (hlast : u.history.getD (u.history.length - 1) [] = u.nodes) :
    (redo (undo u)).nodes = u.nodes ∧
    (0 < u.historyIndex →
      (undo u).selectedNodeIds = [] ∧ (redo (undo u)).selectedNodeIds = []) := by
  have hpos : 0 < u.history.length := List.length_pos.mpr hne
  by_cases h0 : 0 < u.historyIndex
  · have hu : undo u =
        { u with nodes := u.history.getD (u.historyIndex - 1).toNat []
                 historyIndex := u.historyIndex - 1
                 selectedNodeIds := [] } := by
      unfold undo
      rw [if_pos h0]
    have hguard : (undo u).historyIndex < ((undo u).history.length : Int) - 1 := by
      rw [hu]
      show u.historyIndex - 1 < (u.history.length : Int) - 1
      omega
    have hr : redo (undo u) =
        { undo u with
            nodes := (undo u).history.getD ((undo u).historyIndex + 1).toNat []
            historyIndex := (undo u).historyIndex + 1
            selectedNodeIds := [] } := by
      unfold redo
      rw [if_pos hguard]
    refine ⟨?_, fun _ => ⟨?_, ?_⟩⟩
    · rw [hr]
      show (undo u).history.getD ((undo u).historyIndex + 1).toNat [] = u.nodes
      rw [hu]
      show u.history.getD (u.historyIndex - 1 + 1).toNat [] = u.nodes
      have hcast : (u.historyIndex - 1 + 1).toNat = u.history.length - 1 := by
        omega
      rw [hcast, hlast]
    · rw [hu]
    · rw [hr]
  · have hu : undo u = u := by
      unfold undo
      rw [if_neg h0]
    have hguard : ¬ (u.historyIndex < (u.history.length : Int) - 1) := by omega
    have hr : redo u = u := by
      unfold redo
      rw [if_neg hguard]
    rw [hu, hr]
    exact ⟨rfl, fun hc => absurd hc h0⟩

theorem roundtrip_saveHistory (t : StoreState) :
    (redo (undo (saveHistory t))).nodes = (saveHistory t).nodes ∧
    (0 < (saveHistory t).historyIndex →
      (undo (saveHistory t)).selectedNodeIds = [] ∧
      (redo (undo (saveHistory t))).selectedNodeIds = []) :=
  roundtrip_of_top _ (saveHistory_history_ne_nil t)
    (saveHistory_historyIndex t) (saveHistory_snapshot t)

/-- C2: immediately after any operation that captured history (every
node-collection mutator, in any state), `undo(); redo()` restores the node
collection exactly; whenever the undo actually stepped
(`historyIndex > 0`), both undo and redo leave the selection empty. -/
theorem c2_undo_redo_roundtrip (s : StoreState) (op : StoreOp)
    (hsave : callsSaveHistory op s = true) :
    (redo (undo (applyOp op s))).nodes = (applyOp op s).nodes ∧
    (0 < (applyOp op s).historyIndex →
      (undo (applyOp op s)).selectedNodeIds = [] ∧
      (redo (undo (applyOp op s))).selectedNodeIds = []) := by
  cases op with
  | addNode d => exact roundtrip_saveHistory _
  | updateNode id u => exact roundtrip_saveHistory _
  | deleteNode id => exact roundtrip_saveHistory _
  | deleteSelectedNodes => exact roundtrip_saveHistory _
  | duplicateSelected => exact roundtrip_saveHistory _
  | alignNodes a =>
      have hsel : ¬ (selectedExisting s).length < 2 := by
        simp only [callsSaveHistory, decide_eq_true_eq] at hsave
        omega
      have he : applyOp (StoreOp.alignNodes a) s =
          saveHistory { s with nodes := alignedNodes a s } :=
        alignNodes_eq_of_large a s hsel
      rw [he]
      exact roundtrip_saveHistory _
  | undo => simp [callsSaveHistory] at hsave
  | redo => simp [callsSaveHistory] at hsave
  | selectNode id multi => simp [callsSaveHistory] at hsave
  | selectNodes ids => simp [callsSaveHistory] at hsave
  | clearSelection => simp [callsSaveHistory] at hsave

/-- Witness for C2 at a concrete mutating operation. -/
theorem c2_undo_redo_roundtrip_witness :
    (redo (undo (applyOp (StoreOp.addNode sampleNodeData) initialState))).nodes =
      (applyOp (StoreOp.addNode sampleNodeData) initialState).nodes ∧
    (0 < (applyOp (StoreOp.addNode sampleNodeData) initialState).historyIndex →
      (undo (applyOp (StoreOp.addNode sampleNodeData) initialState)).selectedNodeIds = [] ∧
      (redo (undo (applyOp (StoreOp.addNode sampleNodeData) initialState))).selectedNodeIds = []) :=
  c2_undo_redo_roundtrip initialState (StoreOp.addNode sampleNodeData) rfl

/-! ### Selection validity (claim C7) -/

/-- Every selected id references an existing node. -/
def SelectionValid (s : StoreState) : Prop :=
  ∀ id ∈ s.selectedNodeIds, ∃ n ∈ s.nodes, n.id = id

/-- The operation subset claim C7 quantifies over. -/
def IsAddDeleteOp (op : StoreOp) : Prop :=
  (∃ d, op = StoreOp.addNode d) ∨ (∃ id, op = StoreOp.deleteNode id) ∨
    op = StoreOp.deleteSelectedNodes

theorem addNode_selectionValid (d : NodeData) (s : StoreState)
    (h : SelectionValid s) : SelectionValid (addNode d s) := by
  intro id hid
  obtain ⟨n, hn, hnid⟩ := h id hid
  exact ⟨n, List.mem_append_left _ hn, hnid⟩

theorem deleteNode_selectionValid (id0 : Nat) (s : StoreState)
    (h : SelectionValid s) : SelectionValid (deleteNode id0 s) := by
  intro id hid
  have hid' : id ∈ s.selectedNodeIds.filter (fun nid => nid ≠ id0) := hid
  rw [List.mem_filter] at hid'
  obtain ⟨hmem, hne⟩ := hid'
  obtain ⟨n, hn, hnid⟩ := h id hmem
  refine ⟨n, ?_, hnid⟩
  show n ∈ s.nodes.filter (fun n => n.id ≠ id0)
  rw [List.mem_filter]
  refine ⟨hn, ?_⟩
  simp only [decide_eq_true_eq] at hne ⊢
  rw [hnid]
  exact hne

theorem deleteSelectedNodes_selectionValid (s : StoreState) :
    SelectionValid (deleteSelectedNodes s) := by
  intro id hid
  exact absurd hid (List.not_mem_nil id)

/-- C7: from any state whose selection only references existing nodes,
any sequence of `addNode` / `deleteNode` / `deleteSelectedNodes` calls
preserves that property: deletion prunes deleted ids from the selection. -/
theorem c7_selection_validity (ops : List StoreOp) (s : StoreState)
    (hops : ∀ op ∈ ops, IsAddDeleteOp op) (hsel : SelectionValid s) :
    SelectionValid (applyOps ops s) := by
  induction ops generalizing s with
  | nil => exact hsel
  | cons op ops ih =>
      have hop := hops op (List.mem_cons_self op ops)
      have hrest : ∀ op' ∈ ops, IsAddDeleteOp op' := fun op' h' =>
        hops op' (List.mem_cons_of_mem _ h')
      have hstep : SelectionValid (applyOp op s) := by
        rcases hop with ⟨d, rfl⟩ | ⟨id, rfl⟩ | rfl
        · exact addNode_selectionValid d s hsel
        · exact deleteNode_selectionValid id s hsel
        · exact deleteSelectedNodes_selectionValid s
      exact ih (applyOp op s) hrest hstep

/-- Witness for C7 at a concrete operation sequence. -/
theorem c7_selection_validity_witness :
    SelectionValid
      (applyOps [StoreOp.addNode sampleNodeData, StoreOp.deleteNode 0,
        StoreOp.deleteSelectedNodes] initialState) :=
  c7_selection_validity _ initialState
    (by
      intro op hop
      simp only [List.mem_cons, List.not_mem_nil, or_false] at hop
      rcases hop with rfl | rfl | rfl
      · exact Or.inl ⟨sampleNodeData, rfl⟩
      · exact Or.inr (Or.inl ⟨0, rfl⟩)
      · exact Or.inr (Or.inr rfl))
    (fun id hid => absurd hid (List.not_mem_nil id))

/-! ### Silent no-op on a missing id (claim C8) -/

/-- A state whose selection holds a dangling id (reachable through
`selectNodes`, which performs no validation). -/
def danglingState : StoreState :=
  { nodes := [], selectedNodeIds := [5], history := [], historyIndex := -1,
    nextId := 0, error := none }

/-- C8 counterexample: with id 5 absent from the node collection but
present in the selection, `deleteNode(5)` changes the selection (it prunes
the dangling id), so the claim that the selection is left unchanged for
every missing id is false. -/
theorem c8_missing_id_counterexample :
    (∀ n ∈ danglingState.nodes, n.id ≠ 5) ∧
    (deleteNode 5 danglingState).selectedNodeIds ≠
      danglingState.selectedNodeIds := by
  decide

/-- C8 (amended): for an id absent from the node collection, `updateNode`
leaves nodes, selection and error untouched yet still captures history;
`deleteNode` leaves nodes and error untouched and leaves the selection
unchanged provided the missing id is not among the selected ids (a
dangling selected id is pruned); `deleteNode` also captures history. -/
theorem c8_missing_id_silent_noop (s : StoreState) (mid : Nat) (u : NodeUpdate)
    (habs : ∀ n ∈ s.nodes, n.id ≠ mid) :
    (updateNode mid u s).nodes = s.nodes ∧
    (updateNode mid u s).selectedNodeIds = s.selectedNodeIds ∧
    (updateNode mid u s).error = s.error ∧
    (updateNode mid u s).history = pushSnapshot s.history s.historyIndex s.nodes ∧
    (deleteNode mid s).nodes = s.nodes ∧
    (deleteNode mid s).selectedNodeIds =
      s.selectedNodeIds.filter (fun nid => nid ≠ mid) ∧
    (mid ∉ s.selectedNodeIds →
      (deleteNode mid s).selectedNodeIds = s.selectedNodeIds) ∧
    (deleteNode mid s).error = s.error ∧
    (deleteNode mid s).history = pushSnapshot s.history s.historyIndex s.nodes := by
  have hmap : s.nodes.map
      (fun n => if n.id = mid then applyNodeUpdate u n else n) = s.nodes := by
    have hcong : ∀ n ∈ s.nodes,
        (if n.id = mid then applyNodeUpdate u n else n) = id n := fun n hn =>
      if_neg (habs n hn)
    rw [List.map_congr_left hcong, List.map_id]
  have hfilter : s.nodes.filter (fun n => n.id ≠ mid) = s.nodes := by
    rw [List.filter_eq_self]
    intro n hn
    simp only [decide_eq_true_eq]
    exact habs n hn
  refine ⟨?_, rfl, rfl, ?_, ?_, rfl, ?_, rfl, ?_⟩
  · show s.nodes.map _ = s.nodes
    exact hmap
  · show pushSnapshot s.history s.historyIndex (s.nodes.map _) = _
    rw [hmap]
  · show s.nodes.filter _ = s.nodes
    exact hfilter
  · intro hni
    show s.selectedNodeIds.filter _ = s.selectedNodeIds
    rw [List.filter_eq_self]
    intro nid hn
    simp only [decide_eq_true_eq]
    intro hEq
    rw [hEq] at hn
    exact hni hn
  · show pushSnapshot s.history s.historyIndex (s.nodes.filter _) = _
    rw [hfilter]

/-- A concrete store state with a single node of id 0 selected. -/
def sampleState : StoreState :=
  { nodes := [{ id := 0, type := .image, assetId := none, url := some "a.png",
                x := 10, y := 10, width := 100, height := 100, rotation := 0,
                opacity := 1, locked := false, zIndex := 0 }]
    selectedNodeIds := [0]
    history := []
    historyIndex := -1
    nextId := 1
    error := none }

/-- Witness for C8 at a concrete store state and missing id. -/
theorem c8_missing_id_silent_noop_witness :
    (updateNode 5 {} sampleState).nodes = sampleState.nodes ∧
    (updateNode 5 {} sampleState).selectedNodeIds = sampleState.selectedNodeIds ∧
    (updateNode 5 {} sampleState).error = sampleState.error ∧
    (updateNode 5 {} sampleState).history =
      pushSnapshot sampleState.history sampleState.historyIndex sampleState.nodes ∧
    (deleteNode 5 sampleState).nodes = sampleState.nodes ∧
    (deleteNode 5 sampleState).selectedNodeIds =
      sampleState.selectedNodeIds.filter (fun nid => nid ≠ 5) ∧
    (5 ∉ sampleState.selectedNodeIds →
      (deleteNode 5 sampleState).selectedNodeIds = sampleState.selectedNodeIds) ∧
    (deleteNode 5 sampleState).error = sampleState.error ∧
    (deleteNode 5 sampleState).history =
      pushSnapshot sampleState.history sampleState.historyIndex sampleState.nodes :=
  c8_missing_id_silent_noop sampleState 5 {} (by decide)

/-! ### Duplicate selected (claims C6 and C10) -/

theorem pushSnapshot_top (hist : List (List CanvasNode)) (snap : List CanvasNode)
    (hlen : hist.length ≤ 50) :
    (pushSnapshot hist ((hist.length : Int) - 1) snap).length =
      min (hist.length + 1) 50 ∧
    (hist.length < 50 →
      pushSnapshot hist ((hist.length : Int) - 1) snap = hist ++ [snap]) := by
  unfold pushSnapshot
  dsimp only
  have hc : (((hist.length : Int) - 1) + 1).toNat = hist.length := by omega
  rw [hc, List.take_length]
  by_cases h50 : 50 < (hist ++ [snap]).length
  · rw [if_pos h50]
    simp only [List.length_append, List.length_singleton] at h50 ⊢
    constructor
    · rw [List.length_tail]
      simp only [List.length_append, List.length_singleton]
      omega
    · intro hlt
      omega
  · rw [if_neg h50]
    simp only [List.length_append, List.length_singleton] at h50
    constructor
    · simp only [List.length_append, List.length_singleton]
      omega
    · intro _
      rfl

/-- The behaviour of `duplicateSelected()` stated by claim C6: the copies
are appended after all existing nodes; there is one copy per selected
existing node; the `i`-th copy is the `i`-th selected node shifted by
`(+20, +20)` with a fresh id and `zIndex = nodes.length + i`; every copy's
id differs from every pre-existing id; the new selection is exactly the
new ids; and exactly one history entry is captured for the whole batch. -/
def DupBehaviour (s : StoreState) : Prop :=
  (duplicateSelected s).nodes = s.nodes ++ duplicatedCopies s ∧
  (duplicatedCopies s).length = (selectedExisting s).length ∧
  (∀ (i : Nat) (hi : i < (duplicatedCopies s).length)
      (hj : i < (selectedExisting s).length),
    (duplicatedCopies s)[i] =
      { (selectedExisting s)[i] with
          id := s.nextId + i
          x := (selectedExisting s)[i].x + 20
          y := (selectedExisting s)[i].y + 20
          zIndex := s.nodes.length + i }) ∧
  (∀ d ∈ duplicatedCopies s, ∀ n ∈ s.nodes, d.id ≠ n.id) ∧
  (duplicateSelected s).selectedNodeIds = (duplicatedCopies s).map (·.id) ∧
  (duplicateSelected s).history.length = min (s.history.length + 1) 50 ∧
  (duplicateSelected s).history.getD
    ((duplicateSelected s).history.length - 1) [] = (duplicateSelected s).nodes ∧
  (duplicateSelected s).historyIndex =
    ((duplicateSelected s).history.length : Int) - 1

/-- C6: `duplicateSelected` appends offset copies with fresh ids, selects
exactly the new ids, and captures one history entry for the whole batch. -/
theorem c6_duplicate_selected (s : StoreState)
    (hfresh : ∀ n ∈ s.nodes, n.id < s.nextId)
    (hidx : s.historyIndex = (s.history.length : Int) - 1)
    (hlen : s.history.length ≤ 50) : DupBehaviour s := by
  refine ⟨rfl, ?_, ?_, ?_, rfl, ?_, ?_, ?_⟩
  · simp [duplicatedCopies]
  · intro i hi hj
    simp [duplicatedCopies]
  · intro d hd n hn
    simp only [duplicatedCopies, List.mem_map] at hd
    obtain ⟨p, hp, rfl⟩ := hd
    have := hfresh n hn
    simp only
    omega
  · show (pushSnapshot s.history s.historyIndex _).length = _
    rw [hidx]
    exact (pushSnapshot_top s.history _ hlen).1
  · exact saveHistory_snapshot _
  · exact saveHistory_historyIndex _

/-- A concrete store state holding one selected 100×100 image node at
(10, 10), with a consistent one-entry history. -/
def sampleState10 : StoreState :=
  { nodes := [{ id := 0, type := .image, assetId := none, url := some "a.png",
                x := 10, y := 10, width := 100, height := 100, rotation := 0,
                opacity := 1, locked := false, zIndex := 0 }]
    selectedNodeIds := [0]
    history := [[{ id := 0, type := .image, assetId := none,
                   url := some "a.png", x := 10, y := 10, width := 100,
                   height := 100, rotation := 0, opacity := 1, locked := false,
                   zIndex := 0 }]]
    historyIndex := 0
    nextId := 1
    error := none }

/-- Witness for C6: duplicating the single selected node at (10, 10)
yields exactly one new node at (30, 30) with a different id, which becomes
the sole selection. -/
theorem c6_duplicate_selected_witness :
    DupBehaviour sampleState10 ∧
    (duplicateSelected sampleState10).nodes =
      sampleState10.nodes ++
        [{ id := 1, type := .image, assetId := none, url := some "a.png",
           x := 30, y := 30, width := 100, height := 100, rotation := 0,
           opacity := 1, locked := false, zIndex := 1 }] ∧
    (duplicateSelected sampleState10).selectedNodeIds = [1] ∧
    (1 : Nat) ≠ 0 :=
  ⟨c6_duplicate_selected sampleState10 (by decide) (by decide) (by decide),
   by decide⟩

/-- A store state at history capacity (50 entries, index 49) with an empty
selection. -/
def atCapacityState : StoreState :=
  { nodes := [], selectedNodeIds := [], history := List.replicate 50 [],
    historyIndex := 49, nextId := 0, error := none }

/-- C10 counterexample: at history capacity a no-op `duplicateSelected()`
(empty selection) appends a snapshot but does NOT advance `historyIndex`
(the oldest entry is evicted and the index stays at 49), refuting the
claim that `historyIndex` advances. -/
theorem c10_noop_duplicate_counterexample :
    (selectedExisting atCapacityState = []) ∧
    (duplicateSelected atCapacityState).nodes = atCapacityState.nodes ∧
    (duplicateSelected atCapacityState).historyIndex ≠
      atCapacityState.historyIndex + 1 := by
  decide

/-- C10 (amended): a `duplicateSelected()` with no selected existing node
leaves the node collection unchanged, empties the selection, and still
captures one history entry whose snapshot is the unchanged collection;
below capacity (`history.length < 50`, no redo tail) this advances
`historyIndex` by one (consuming an undo step), while exactly at capacity
the oldest entry is evicted and `historyIndex` stays at 49. -/
theorem c10_noop_duplicate (s : StoreState)
    (hsel : selectedExisting s = []) :
    (duplicateSelected s).nodes = s.nodes ∧
    (duplicateSelected s).selectedNodeIds = [] ∧
    (duplicateSelected s).history =
      pushSnapshot s.history s.historyIndex s.nodes ∧
    (duplicateSelected s).historyIndex =
      ((duplicateSelected s).history.length : Int) - 1 ∧
    (s.historyIndex = (s.history.length : Int) - 1 → s.history.length < 50 →
      (duplicateSelected s).history = s.history ++ [s.nodes] ∧
      (duplicateSelected s).historyIndex = s.historyIndex + 1) ∧
    (s.historyIndex = (s.history.length : Int) - 1 → s.history.length = 50 →
      (duplicateSelected s).historyIndex = s.historyIndex) := by
  have hcopies : duplicatedCopies s = [] := by
    simp [duplicatedCopies, hsel]
  have hnodes : s.nodes ++ duplicatedCopies s = s.nodes := by
    rw [hcopies, List.append_nil]
  have hhist : (duplicateSelected s).history =
      pushSnapshot s.history s.historyIndex s.nodes := by
    show pushSnapshot s.history s.historyIndex (s.nodes ++ duplicatedCopies s) = _
    rw [hnodes]
  refine ⟨?_, ?_, hhist, saveHistory_historyIndex _, ?_, ?_⟩
  · show s.nodes ++ duplicatedCopies s = s.nodes
    exact hnodes
  · show (duplicatedCopies s).map (·.id) = []
    rw [hcopies]
    rfl
  · intro hidx hlt
    have hps := (pushSnapshot_top s.history s.nodes (by omega)).2 hlt
    rw [hidx] at hhist
    have hh : (duplicateSelected s).history = s.history ++ [s.nodes] := by
      rw [hhist, hps]
    refine ⟨hh, ?_⟩
    have hix : (duplicateSelected s).historyIndex =
        ((duplicateSelected s).history.length : Int) - 1 :=
      saveHistory_historyIndex _
    rw [hix, hh]
    simp only [List.length_append, List.length_singleton]
    omega
  · intro hidx h50
    have hl : (duplicateSelected s).history.length =
        min (s.history.length + 1) 50 := by
      rw [hhist, hidx]
      exact (pushSnapshot_top s.history s.nodes (by omega)).1
    have hix : (duplicateSelected s).historyIndex =
        ((duplicateSelected s).history.length : Int) - 1 :=
      saveHistory_historyIndex _
    rw [hix, hl, h50]
    omega

/-- A concrete below-capacity store state with one node and no selection. -/
def emptySelState : StoreState :=
  { nodes := [{ id := 0, type := .image, assetId := none, url := some "a.png",
                x := 10, y := 10, width := 100, height := 100, rotation := 0,
                opacity := 1, locked := false, zIndex := 0 }]
    selectedNodeIds := []
    history := [[{ id := 0, type := .image, assetId := none,
                   url := some "a.png", x := 10, y := 10, width := 100,
                   height := 100, rotation := 0, opacity := 1, locked := false,
                   zIndex := 0 }]]
    historyIndex := 0
    nextId := 1
    error := none }

/-- Witness for C10 at a concrete below-capacity state with an empty
selection. -/
theorem c10_noop_duplicate_witness :
    (duplicateSelected emptySelState).nodes = emptySelState.nodes ∧
    (duplicateSelected emptySelState).selectedNodeIds = [] ∧
    (duplicateSelected emptySelState).history =
      pushSnapshot emptySelState.history emptySelState.historyIndex
        emptySelState.nodes ∧
    (duplicateSelected emptySelState).historyIndex =
      ((duplicateSelected emptySelState).history.length : Int) - 1 ∧
    (emptySelState.historyIndex = (emptySelState.history.length : Int) - 1 →
      emptySelState.history.length < 50 →
      (duplicateSelected emptySelState).history =
        emptySelState.history ++ [emptySelState.nodes] ∧
      (duplicateSelected emptySelState).historyIndex =
        emptySelState.historyIndex + 1) ∧
    (emptySelState.historyIndex = (emptySelState.history.length : Int) - 1 →
      emptySelState.history.length = 50 →
      (duplicateSelected emptySelState).historyIndex =
        emptySelState.historyIndex) :=
  c10_noop_duplicate emptySelState (by decide)

/-! ### Mode-dependent selection cardinality (claim C4) -/

/-- `canvasMode ∈ {select, chat, dragdrop}`. -/
inductive CanvasMode where
  | select
  | chat
  | dragdrop
deriving DecidableEq, Inhabited

/-- The `selection:created` handler of Canvas.tsx acting on the selection
state, given the node ids extracted from the fabric event (`ids`) and the
current selection: in chat and dragdrop modes a single id is selected and a
multi-selection is discarded outright (`discardActiveObject` +
`clearSelection`); in select mode a multi-selection is kept wholesale.
When no id is extracted the handler does not change the selection. -/
def selectionCreatedResult (mode : CanvasMode) (ids : List Nat)
    (sel : List Nat) : List Nat :=
  if ids.length = 0 then sel
  else
    match mode with
    | .chat => if ids.length = 1 then [ids.headI] else []
    | .dragdrop => if ids.length = 1 then [ids.headI] else []
    | .select => if 1 < ids.length then ids else [ids.headI]

/-- The `selection:updated` handler of Canvas.tsx: only chat mode gets the
single-selection branch; every other mode (including dragdrop) falls into
the else branch that keeps a multi-selection wholesale. -/
def selectionUpdatedResult (mode : CanvasMode) (ids : List Nat)
    (sel : List Nat) : List Nat :=
  if ids.length = 0 then sel
  else
    match mode with
    | .chat => if ids.length = 1 then [ids.headI] else []
    | _ => if 1 < ids.length then ids else [ids.headI]

/-- The `handleSelection` handler that the dragdrop-mode effect of
Canvas.tsx attaches to both `selection:created` and `selection:updated`
(active only while `canvasMode === 'dragdrop'`): it wholesale-selects the
ids of `e.selected`, or on pure deselection keeps the remaining ids. -/
def dragdropHandleSelection (selected deselected : List Nat)
    (sel : List Nat) : List Nat :=
  if 0 < selected.length then selected
  else if 0 < deselected.length then
    sel.filter (fun id => !(deselected.contains id))
  else sel

/-- C4 counterexample: in dragdrop mode, a `selection:updated` event
carrying two ids leaves both ids selected (the handler has no dragdrop
branch and falls into the multi-selection else branch), instead of the
zero ids the claim requires. -/
theorem c4_mode_cardinality_counterexample :
    selectionUpdatedResult .dragdrop [1, 2] [] = [1, 2] ∧
    (selectionUpdatedResult .dragdrop [1, 2] []).length ≠ 0 := by
  decide

/-- C4 (amended): in chat mode every selection handler collapses a
would-be multi-selection to zero ids, and in dragdrop mode the
`selection:created` handler does too; but in dragdrop mode the
`selection:updated` handler and the dragdrop effect's own handler keep
the whole multi-selection (dragdrop deliberately lets the selection reach
two ids to trigger pair generation). -/
theorem c4_mode_cardinality (ids sel : List Nat) (h : 1 < ids.length) :
    selectionCreatedResult .chat ids sel = [] ∧
    selectionUpdatedResult .chat ids sel = [] ∧
    selectionCreatedResult .dragdrop ids sel = [] ∧
    selectionUpdatedResult .dragdrop ids sel = ids ∧
    dragdropHandleSelection ids [] sel = ids := by
  have h0 : ¬ ids.length = 0 := by omega
  have h1 : ¬ ids.length = 1 := by omega
  refine ⟨?_, ?_, ?_, ?_, ?_⟩
  · unfold selectionCreatedResult
    rw [if_neg h0, if_neg h1]
  · unfold selectionUpdatedResult
    rw [if_neg h0, if_neg h1]
  · unfold selectionCreatedResult
    rw [if_neg h0, if_neg h1]
  · unfold selectionUpdatedResult
    rw [if_neg h0, if_pos h]
  · unfold dragdropHandleSelection
    rw [if_pos (by omega)]

/-- Witness for C4 at a concrete two-id selection event. -/
theorem c4_mode_cardinality_witness :
    selectionCreatedResult .chat [1, 2] [7] = [] ∧
    selectionUpdatedResult .chat [1, 2] [7] = [] ∧
    selectionCreatedResult .dragdrop [1, 2] [7] = [] ∧
    selectionUpdatedResult .dragdrop [1, 2] [7] = [1, 2] ∧
    dragdropHandleSelection [1, 2] [] [7] = [1, 2] :=
  c4_mode_cardinality [1, 2] [7] (by decide)

/-! ### Row alignment (claim C5) -/

theorem setFirstById_eq_map (mid : Nat) (f : CanvasNode → CanvasNode)
    (l : List CanvasNode) (hnd : (l.map (fun n => n.id)).Nodup) :
    setFirstById mid f l = l.map (fun n => if n.id = mid then f n else n) := by
  induction l with
  | nil => rfl
  | cons a l ih =>
      simp only [List.map_cons, List.nodup_cons] at hnd
      obtain ⟨hna, hnd'⟩ := hnd
      unfold setFirstById
      by_cases ha : a.id = mid
      · rw [if_pos ha, List.map_cons, if_pos ha]
        have hl : l.map (fun n => if n.id = mid then f n else n) = l := by
          have hcong : ∀ n ∈ l, (if n.id = mid then f n else n) = id n := by
            intro n hn
            have hne : n.id ≠ mid := by
              intro hEq
              apply hna
              rw [ha, ← hEq]
              exact List.mem_map_of_mem _ hn
            exact if_neg hne
          rw [List.map_congr_left hcong, List.map_id]
        rw [hl]
      · rw [if_neg ha, List.map_cons, if_neg ha, ih hnd']

theorem setFirstById_ids (mid : Nat) (f : CanvasNode → CanvasNode)
    (hf : ∀ m, (f m).id = m.id) (l : List CanvasNode) :
    (setFirstById mid f l).map (fun n => n.id) = l.map (fun n => n.id) := by
  induction l with
  | nil => rfl
  | cons a l ih =>
      unfold setFirstById
      by_cases ha : a.id = mid
      · rw [if_pos ha]
        simp only [List.map_cons, hf]
      · rw [if_neg ha]
        simp only [List.map_cons, ih]

/-- The per-node effect of the row walk, expressed as a cursor recursion
over the sorted selected list: the first selected node whose id matches is
placed at the current cursor with the shared baseline `avgY`, each skipped
node advances the cursor by `width + GAP`; nodes matching no selected id
are untouched. -/
def rowTarget (avgY c : ℚ) (ss : List CanvasNode) (n : CanvasNode) :
    CanvasNode :=
  match ss with
  | [] => n
  | q :: ss' =>
      if q.id = n.id then { n with x := c, y := avgY }
      else rowTarget avgY (c + q.width + GAP) ss' n

theorem rowTarget_cons (avgY c : ℚ) (q : CanvasNode) (ss : List CanvasNode)
    (n : CanvasNode) :
    rowTarget avgY c (q :: ss) n =
      if q.id = n.id then { n with x := c, y := avgY }
      else rowTarget avgY (c + q.width + GAP) ss n := rfl

theorem rowTarget_of_not_mem (avgY c : ℚ) (ss : List CanvasNode)
    (n : CanvasNode) (h : ∀ q ∈ ss, q.id ≠ n.id) :
    rowTarget avgY c ss n = n := by
  induction ss generalizing c with
  | nil => rfl
  | cons q ss ih =>
      unfold rowTarget
      rw [if_neg (h q (List.mem_cons_self q ss))]
      exact ih _ fun p hp => h p (List.mem_cons_of_mem q hp)

theorem rowTarget_fields (avgY c : ℚ) (ss : List CanvasNode)
    (n : CanvasNode) :
    (rowTarget avgY c ss n).width = n.width ∧
    (rowTarget avgY c ss n).height = n.height ∧
    (rowTarget avgY c ss n).id = n.id := by
  induction ss generalizing c with
  | nil => exact ⟨rfl, rfl, rfl⟩
  | cons q ss ih =>
      unfold rowTarget
      by_cases hq : q.id = n.id
      · rw [if_pos hq]
        exact ⟨rfl, rfl, rfl⟩
      · rw [if_neg hq]
        exact ih _

theorem rowTarget_y_of_mem (avgY c : ℚ) (ss : List CanvasNode)
    (n : CanvasNode) (h : ∃ q ∈ ss, q.id = n.id) :
    (rowTarget avgY c ss n).y = avgY := by
  induction ss generalizing c with
  | nil => obtain ⟨q, hq, _⟩ := h; exact absurd hq (List.not_mem_nil q)
  | cons q ss ih =>
      unfold rowTarget
      by_cases hq : q.id = n.id
      · rw [if_pos hq]
      · rw [if_neg hq]
        obtain ⟨p, hp, hpid⟩ := h
        rcases List.mem_cons.mp hp with rfl | hp'
        · exact absurd hpid hq
        · exact ih _ ⟨p, hp', hpid⟩

theorem row_fold_eq (avgY : ℚ) (ss : List CanvasNode) :
    ∀ (acc : List CanvasNode) (c : ℚ),
    (acc.map (fun n => n.id)).Nodup →
    (ss.map (fun n => n.id)).Nodup →
    (ss.foldl (rowPlace avgY) (acc, c)).1 = acc.map (rowTarget avgY c ss) := by
  induction ss with
  | nil =>
      intro acc c _ _
      have : ∀ n ∈ acc, rowTarget avgY c [] n = id n := fun n _ => rfl
      simp only [List.foldl_nil]
      rw [List.map_congr_left this, List.map_id]
  | cons q ss ih =>
      intro acc c hacc hss
      simp only [List.map_cons, List.nodup_cons] at hss
      obtain ⟨hq, hss'⟩ := hss
      simp only [List.foldl_cons]
      have hstep : rowPlace avgY (acc, c) q =
          (setFirstById q.id (fun m => { m with x := c, y := avgY }) acc,
           c + q.width + GAP) := rfl
      rw [hstep]
      have hacc' : ((setFirstById q.id
          (fun m => { m with x := c, y := avgY }) acc).map
            (fun n => n.id)).Nodup := by
        rw [setFirstById_ids q.id (fun m => { m with x := c, y := avgY })
          (fun m => rfl) acc]
        exact hacc
      rw [ih _ _ hacc' hss']
      rw [setFirstById_eq_map _ _ _ hacc, List.map_map]
      apply List.map_congr_left
      intro n hn
      simp only [Function.comp_apply]
      by_cases hid2 : n.id = q.id
      · rw [if_pos hid2]
        have harg : ∀ p ∈ ss, p.id ≠
            ({ n with x := c, y := avgY } : CanvasNode).id := by
          intro p hp hEq
          apply hq
          rw [← hid2, ← hEq]
          exact List.mem_map_of_mem _ hp
        rw [rowTarget_of_not_mem _ _ _ _ harg]
        rw [rowTarget_cons, if_pos hid2.symm]
      · rw [if_neg hid2]
        rw [rowTarget_cons, if_neg fun hEq => hid2 hEq.symm]

instance : IsTotal CanvasNode (fun p q => p.x ≤ q.x) :=
  ⟨fun a b => le_total a.x b.x⟩

instance : IsTrans CanvasNode (fun p q => p.x ≤ q.x) :=
  ⟨fun _ _ _ h1 h2 => le_trans h1 h2⟩

theorem selectedExisting_ids_nodup (s : StoreState)
    (hnd : (s.nodes.map (fun n => n.id)).Nodup) :
    ((selectedExisting s).map (fun n => n.id)).Nodup :=
  hnd.sublist ((List.filter_sublist _).map _)

theorem sortByX_perm (l : List CanvasNode) : (sortByX l).Perm l :=
  List.perm_insertionSort _ l

theorem sortByX_ids_nodup (l : List CanvasNode)
    (h : (l.map (fun n => n.id)).Nodup) :
    ((sortByX l).map (fun n => n.id)).Nodup :=
  ((sortByX_perm l).map _).nodup_iff.mpr h

/-- Everything claim C5 asserts about `alignNodes('row')`: the resulting
node collection is the pointwise cursor walk `rowTarget` over the sorted
selected list (sorted ascending by x, a permutation of the selected nodes,
anchored at the leftmost selected x); the shared baseline equals the mean
of the selected nodes' original y; sizes and ids are never changed;
unselected nodes are untouched; selected nodes all end on the baseline;
and one history capture happens. -/
def RowBehaviour (s : StoreState) : Prop :=
  let sel := selectedExisting s
  let ss := sortByX sel
  let avgY := ((ss.map (fun n => n.y)).sum) / (ss.length : ℚ)
  (alignNodes .row s).nodes = s.nodes.map (rowTarget avgY ss.headI.x ss) ∧
  List.Sorted (fun p q => p.x ≤ q.x) ss ∧
  ss.Perm sel ∧
  (∀ q ∈ sel, ss.headI.x ≤ q.x) ∧
  avgY = ((sel.map (fun n => n.y)).sum) / (sel.length : ℚ) ∧
  (∀ n : CanvasNode,
    (rowTarget avgY ss.headI.x ss n).width = n.width ∧
    (rowTarget avgY ss.headI.x ss n).height = n.height ∧
    (rowTarget avgY ss.headI.x ss n).id = n.id) ∧
  (∀ n ∈ s.nodes, ¬ s.selectedNodeIds.contains n.id →
    rowTarget avgY ss.headI.x ss n = n) ∧
  (∀ n : CanvasNode, (∃ q ∈ ss, q.id = n.id) →
    (rowTarget avgY ss.headI.x ss n).y = avgY) ∧
  (alignNodes .row s).historyIndex =
    ((alignNodes .row s).history.length : Int) - 1

/-- C5: row alignment walks the selected nodes in ascending x order,
placing them at a running cursor that starts at the leftmost selected x
and advances by width + 20, with every selected node's y set to the mean
of the original selected y values; sizes are unchanged. -/
theorem c5_row_alignment (s : StoreState)
    (hnd : (s.nodes.map (fun n => n.id)).Nodup)
    (h2 : 2 ≤ (selectedExisting s).length) :
    RowBehaviour s := by
  have hselnd := selectedExisting_ids_nodup s hnd
  have hssnd := sortByX_ids_nodup _ hselnd
  have hperm := sortByX_perm (selectedExisting s)
  have hlarge : ¬ (selectedExisting s).length < 2 := by omega
  have hsorted : List.Sorted (fun p q : CanvasNode => p.x ≤ q.x)
      (sortByX (selectedExisting s)) :=
    List.sorted_insertionSort _ _
  have hlen : (sortByX (selectedExisting s)).length =
      (selectedExisting s).length := hperm.length_eq
  have hne : sortByX (selectedExisting s) ≠ [] := by
    intro hEq
    rw [hEq] at hlen
    simp only [List.length_nil] at hlen
    omega
  refine ⟨?_, hsorted, hperm, ?_, ?_, ?_, ?_, ?_, ?_⟩
  · rw [alignNodes_eq_of_large .row s hlarge]
    show alignedNodes .row s = _
    unfold alignedNodes
    exact row_fold_eq _ _ s.nodes _ hnd hssnd
  · intro q hq
    have hq' : q ∈ sortByX (selectedExisting s) := hperm.mem_iff.mpr hq
    cases hss : sortByX (selectedExisting s) with
    | nil => exact absurd hss hne
    | cons a t =>
        rw [hss] at hq' hsorted
        show a.x ≤ q.x
        rcases List.mem_cons.mp hq' with rfl | hq''
        · exact le_refl _
        · exact List.rel_of_sorted_cons hsorted q hq''
  · rw [hlen, ((hperm.map (fun n => n.y)).sum_eq : _)]
  · intro n
    exact rowTarget_fields _ _ _ n
  · intro n hn hnsel
    apply rowTarget_of_not_mem
    intro q hq hEq
    apply hnsel
    have hqsel : q ∈ selectedExisting s := hperm.mem_iff.mp hq
    have := List.of_mem_filter hqsel
    rw [← hEq]
    exact this
  · intro n hex
    exact rowTarget_y_of_mem _ _ _ n hex
  · rw [alignNodes_eq_of_large .row s hlarge]
    exact saveHistory_historyIndex _

/-- The two-node store state of property P5: A(0,0,50,50) and
B(200,100,80,80), both selected. -/
def rowState : StoreState :=
  { nodes := [{ id := 1, type := .image, assetId := none, url := none,
                x := 0, y := 0, width := 50, height := 50, rotation := 0,
                opacity := 1, locked := false, zIndex := 0 },
              { id := 2, type := .image, assetId := none, url := none,
                x := 200, y := 100, width := 80, height := 80, rotation := 0,
                opacity := 1, locked := false, zIndex := 1 }]
    selectedNodeIds := [1, 2]
    history := []
    historyIndex := -1
    nextId := 3
    error := none }

/-- Witness for C5: on A(0,0,50,50) and B(200,100,80,80) the row alignment
gives both nodes y = 50 (the mean of 0 and 100) and moves B to
x = 0 + 50 + 20 = 70; sizes unchanged. -/
theorem c5_row_alignment_witness :
    RowBehaviour rowState ∧
    (alignNodes .row rowState).nodes =
      [{ id := 1, type := .image, assetId := none, url := none,
         x := 0, y := 50, width := 50, height := 50, rotation := 0,
         opacity := 1, locked := false, zIndex := 0 },
       { id := 2, type := .image, assetId := none, url := none,
         x := 70, y := 50, width := 80, height := 80, rotation := 0,
         opacity := 1, locked := false, zIndex := 1 }] :=
  ⟨c5_row_alignment rowState (by decide) (by decide), by decide⟩

/-! ### Grid arrangement (claim C3) -/

theorem ceilSqrtLoop_spec (n : Nat) : ∀ (fuel k : Nat),
    n ≤ (k + fuel) * (k + fuel) →
    n ≤ ceilSqrtLoop n fuel k * ceilSqrtLoop n fuel k ∧
    k ≤ ceilSqrtLoop n fuel k ∧
    ∀ m : Nat, k ≤ m → n ≤ m * m → ceilSqrtLoop n fuel k ≤ m := by
  intro fuel
  induction fuel with
  | zero =>
      intro k h
      exact ⟨by simpa using h, le_refl k, fun m hm _ => hm⟩
  | succ fuel ih =>
      intro k h
      have hstep : ceilSqrtLoop n (fuel + 1) k =
          if n ≤ k * k then k else ceilSqrtLoop n fuel (k + 1) := rfl
      rw [hstep]
      by_cases hk : n ≤ k * k
      · rw [if_pos hk]
        exact ⟨hk, le_refl k, fun m hm _ => hm⟩
      · rw [if_neg hk]
        have h' : n ≤ ((k + 1) + fuel) * ((k + 1) + fuel) := by
          have harith : (k + 1) + fuel = k + (fuel + 1) := by omega
          rw [harith]
          exact h
        obtain ⟨ha, hb, hc⟩ := ih (k + 1) h'
        refine ⟨ha, by omega, fun m hm hm2 => ?_⟩
        have hm1 : k + 1 ≤ m := by
          rcases Nat.lt_or_ge k m with hlt | hge
          · omega
          · have hmk : m = k := by omega
            rw [hmk] at hm2
            exact absurd hm2 hk
        exact hc m hm1 hm2

theorem ceilSqrt_spec (n : Nat) :
    n ≤ ceilSqrt n * ceilSqrt n ∧ ∀ m : Nat, n ≤ m * m → ceilSqrt n ≤ m := by
  have hfuel : n ≤ (0 + n) * (0 + n) := by
    simp only [Nat.zero_add]
    calc n = 1 * n := (Nat.one_mul n).symm
    _ ≤ n * n := by
      cases n with
      | zero => exact le_refl 0
      | succ m => exact Nat.mul_le_mul_right _ (by omega)
  obtain ⟨ha, _, hc⟩ := ceilSqrtLoop_spec n n 0 hfuel
  exact ⟨ha, fun m hm => hc m (Nat.zero_le m) hm⟩

theorem le_listMax (l : List ℚ) : ∀ w ∈ l, w ≤ listMax l := by
  induction l with
  | nil => intro w hw; exact absurd hw (List.not_mem_nil w)
  | cons a l ih =>
      intro w hw
      cases l with
      | nil =>
          rcases List.mem_cons.mp hw with rfl | hw'
          · exact le_refl _
          · exact absurd hw' (List.not_mem_nil w)
      | cons b t =>
          rcases List.mem_cons.mp hw with rfl | hw'
          · exact le_max_left _ _
          · exact le_trans (ih w hw') (le_max_right _ _)

theorem listMax_mem (l : List ℚ) (h : l ≠ []) : listMax l ∈ l := by
  induction l with
  | nil => exact absurd rfl h
  | cons a l ih =>
      cases l with
      | nil => exact List.mem_singleton.mpr rfl
      | cons b t =>
          have hstep : listMax (a :: b :: t) = max a (listMax (b :: t)) := rfl
          rcases le_total a (listMax (b :: t)) with hle | hle
          · rw [hstep, max_eq_right hle]
            exact List.mem_cons_of_mem a (ih (by simp))
          · rw [hstep, max_eq_left hle]
            exact List.mem_cons_self _ _

/-- The per-node effect of the grid pass, expressed as an index recursion
over the selected list in original (document) selection order: the first
selected node whose id matches, met at running index `k`, is placed at
column `k % numCols` and row `k / numCols` of the uniform cell grid,
centered in its cell; nodes matching no selected id are untouched. -/
def gridTarget (startX startY maxW maxH : ℚ) (numCols k : Nat)
    (sel : List CanvasNode) (n : CanvasNode) : CanvasNode :=
  match sel with
  | [] => n
  | q :: sel' =>
      if q.id = n.id then
        { n with
          x := startX + ((k % numCols : Nat) : ℚ) * (maxW + GAP)
                + (maxW - q.width) / 2
          y := startY + ((k / numCols : Nat) : ℚ) * (maxH + GAP)
                + (maxH - q.height) / 2 }
      else gridTarget startX startY maxW maxH numCols (k + 1) sel' n

theorem gridTarget_cons (startX startY maxW maxH : ℚ) (numCols k : Nat)
    (q : CanvasNode) (sel : List CanvasNode) (n : CanvasNode) :
    gridTarget startX startY maxW maxH numCols k (q :: sel) n =
      if q.id = n.id then
        { n with
          x := startX + ((k % numCols : Nat) : ℚ) * (maxW + GAP)
                + (maxW - q.width) / 2
          y := startY + ((k / numCols : Nat) : ℚ) * (maxH + GAP)
                + (maxH - q.height) / 2 }
      else gridTarget startX startY maxW maxH numCols (k + 1) sel n := rfl

theorem gridTarget_of_not_mem (startX startY maxW maxH : ℚ)
    (numCols : Nat) (sel : List CanvasNode) (n : CanvasNode) :
    ∀ k : Nat, (∀ q ∈ sel, q.id ≠ n.id) →
    gridTarget startX startY maxW maxH numCols k sel n = n := by
  induction sel with
  | nil => intro k _; rfl
  | cons q sel ih =>
      intro k h
      rw [gridTarget_cons, if_neg (h q (List.mem_cons_self q sel))]
      exact ih _ fun p hp => h p (List.mem_cons_of_mem q hp)

theorem gridTarget_fields (startX startY maxW maxH : ℚ)
    (numCols : Nat) (sel : List CanvasNode) (n : CanvasNode) :
    ∀ k : Nat,
    (gridTarget startX startY maxW maxH numCols k sel n).width = n.width ∧
    (gridTarget startX startY maxW maxH numCols k sel n).height = n.height ∧
    (gridTarget startX startY maxW maxH numCols k sel n).id = n.id := by
  induction sel with
  | nil => intro k; exact ⟨rfl, rfl, rfl⟩
  | cons q sel ih =>
      intro k
      rw [gridTarget_cons]
      by_cases hq : q.id = n.id
      · rw [if_pos hq]
        exact ⟨rfl, rfl, rfl⟩
      · rw [if_neg hq]
        exact ih _

theorem grid_fold_eq (startX startY maxW maxH : ℚ) (numCols : Nat)
    (sel : List CanvasNode) :
    ∀ (acc : List CanvasNode) (k : Nat),
    (acc.map (fun n => n.id)).Nodup →
    (sel.map (fun n => n.id)).Nodup →
    (sel.enumFrom k).foldl (gridPlace startX startY maxW maxH numCols) acc =
      acc.map (gridTarget startX startY maxW maxH numCols k sel) := by
  induction sel with
  | nil =>
      intro acc k _ _
      have hcong : ∀ n ∈ acc,
          gridTarget startX startY maxW maxH numCols k [] n = id n :=
        fun n _ => rfl
      show acc = _
      rw [List.map_congr_left hcong, List.map_id]
  | cons q sel ih =>
      intro acc k hacc hsel
      simp only [List.map_cons, List.nodup_cons] at hsel
      obtain ⟨hq, hsel'⟩ := hsel
      have henum : List.enumFrom k (q :: sel) =
          (k, q) :: List.enumFrom (k + 1) sel := rfl
      rw [henum]
      simp only [List.foldl_cons]
      have hstep : gridPlace startX startY maxW maxH numCols acc (k, q) =
          setFirstById q.id
            (fun m =>
              { m with
                x := startX + ((k % numCols : Nat) : ℚ) * (maxW + GAP)
                      + (maxW - q.width) / 2
                y := startY + ((k / numCols : Nat) : ℚ) * (maxH + GAP)
                      + (maxH - q.height) / 2 }) acc := rfl
      rw [hstep]
      have hacc' : ((setFirstById q.id
          (fun m =>
            { m with
              x := startX + ((k % numCols : Nat) : ℚ) * (maxW + GAP)
                    + (maxW - q.width) / 2
              y := startY + ((k / numCols : Nat) : ℚ) * (maxH + GAP)
                    + (maxH - q.height) / 2 }) acc).map
            (fun n => n.id)).Nodup := by
        rw [setFirstById_ids q.id
          (fun m =>
            { m with
              x := startX + ((k % numCols : Nat) : ℚ) * (maxW + GAP)
                    + (maxW - q.width) / 2
              y := startY + ((k / numCols : Nat) : ℚ) * (maxH + GAP)
                    + (maxH - q.height) / 2 }) (fun m => rfl) acc]
        exact hacc
      rw [ih _ _ hacc' hsel']
      rw [setFirstById_eq_map _ _ _ hacc, List.map_map]
      apply List.map_congr_left
      intro n hn
      simp only [Function.comp_apply]
      by_cases hid2 : n.id = q.id
      · rw [if_pos hid2]
        have harg : ∀ p ∈ sel, p.id ≠ n.id := by
          intro p hp hEq
          apply hq
          rw [← hid2, ← hEq]
          exact List.mem_map_of_mem _ hp
        rw [gridTarget_cons, if_pos hid2.symm]
        exact gridTarget_of_not_mem _ _ _ _ _ _ _ _ harg
      · rw [if_neg hid2]
        rw [gridTarget_cons, if_neg fun hEq => hid2 hEq.symm]

/-- Everything claim C3 asserts about `alignNodes('grid')`: the resulting
node collection is the pointwise index walk `gridTarget` over the selected
nodes in original (document) selection order, anchored at the first
selected node's position with `numCols = ceil(sqrt(n))` (characterised as
the least `m` with `n ≤ m * m`) and a uniform cell of the maximal selected
width and height; sizes and ids are never changed; unselected nodes are
untouched; and one history capture happens. -/
def GridBehaviour (s : StoreState) : Prop :=
  let sel := selectedExisting s
  let numCols := ceilSqrt sel.length
  let maxW := listMax (sel.map (fun n => n.width))
  let maxH := listMax (sel.map (fun n => n.height))
  (alignNodes .grid s).nodes =
    s.nodes.map (gridTarget sel.headI.x sel.headI.y maxW maxH numCols 0 sel) ∧
  sel.length ≤ numCols * numCols ∧
  (∀ m : Nat, sel.length ≤ m * m → numCols ≤ m) ∧
  (∀ q ∈ sel, q.width ≤ maxW ∧ q.height ≤ maxH) ∧
  maxW ∈ sel.map (fun n => n.width) ∧
  maxH ∈ sel.map (fun n => n.height) ∧
  (∀ n : CanvasNode,
    (gridTarget sel.headI.x sel.headI.y maxW maxH numCols 0 sel n).width =
      n.width ∧
    (gridTarget sel.headI.x sel.headI.y maxW maxH numCols 0 sel n).height =
      n.height ∧
    (gridTarget sel.headI.x sel.headI.y maxW maxH numCols 0 sel n).id = n.id) ∧
  (∀ n ∈ s.nodes, ¬ s.selectedNodeIds.contains n.id →
    gridTarget sel.headI.x sel.headI.y maxW maxH numCols 0 sel n = n) ∧
  (alignNodes .grid s).historyIndex =
    ((alignNodes .grid s).history.length : Int) - 1

/-- C3: grid arrangement uses `numCols = ceil(sqrt(n))`, a uniform cell of
the maximal selected width/height, the first selected node's position as
anchor, and places the i-th selected node (original selection order) at
column `i % numCols` / row `i / numCols`, centered per cell; sizes are
never changed. -/
theorem c3_grid_arrangement (s : StoreState)
    (hnd : (s.nodes.map (fun n => n.id)).Nodup)
    (h2 : 2 ≤ (selectedExisting s).length) :
    GridBehaviour s := by
  have hselnd := selectedExisting_ids_nodup s hnd
  have hlarge : ¬ (selectedExisting s).length < 2 := by omega
  have hspec := ceilSqrt_spec (selectedExisting s).length
  have hne : selectedExisting s ≠ [] := by
    intro hEq
    rw [hEq] at h2
    simp only [List.length_nil] at h2
    omega
  have hwne : (selectedExisting s).map (fun n => n.width) ≠ [] := by
    intro hEq
    have := congrArg List.length hEq
    simp only [List.length_map, List.length_nil] at this
    omega
  have hhne : (selectedExisting s).map (fun n => n.height) ≠ [] := by
    intro hEq
    have := congrArg List.length hEq
    simp only [List.length_map, List.length_nil] at this
    omega
  refine ⟨?_, hspec.1, hspec.2, ?_, listMax_mem _ hwne, listMax_mem _ hhne,
    ?_, ?_, ?_⟩
  · rw [alignNodes_eq_of_large .grid s hlarge]
    show alignedNodes .grid s = _
    unfold alignedNodes
    exact grid_fold_eq _ _ _ _ _ _ s.nodes 0 hnd hselnd
  · intro q hq
    exact ⟨le_listMax _ _ (List.mem_map_of_mem _ hq),
           le_listMax _ _ (List.mem_map_of_mem _ hq)⟩
  · intro n
    exact gridTarget_fields _ _ _ _ _ _ n 0
  · intro n hn hnsel
    apply gridTarget_of_not_mem
    intro q hq hEq
    apply hnsel
    have := List.of_mem_filter hq
    rw [← hEq]
    exact this
  · rw [alignNodes_eq_of_large .grid s hlarge]
    exact saveHistory_historyIndex _

/-- The four-node store state of property P6: four 100×100 nodes, all
selected, the first at (0, 0). -/
def gridState : StoreState :=
  { nodes := [{ id := 1, type := .image, assetId := none, url := none,
                x := 0, y := 0, width := 100, height := 100, rotation := 0,
                opacity := 1, locked := false, zIndex := 0 },
              { id := 2, type := .image, assetId := none, url := none,
                x := 300, y := 7, width := 100, height := 100, rotation := 0,
                opacity := 1, locked := false, zIndex := 1 },
              { id := 3, type := .image, assetId := none, url := none,
                x := 5, y := 400, width := 100, height := 100, rotation := 0,
                opacity := 1, locked := false, zIndex := 2 },
              { id := 4, type := .image, assetId := none, url := none,
                x := 640, y := 220, width := 100, height := 100, rotation := 0,
                opacity := 1, locked := false, zIndex := 3 }]
    selectedNodeIds := [1, 2, 3, 4]
    history := []
    historyIndex := -1
    nextId := 5
    error := none }

/-- Witness for C3: four equal 100×100 selected nodes land in a 2×2 layout
(`numCols = 2`), with no per-axis centering offset, at
`startX + col*120` / `startY + row*120`. -/
theorem c3_grid_arrangement_witness :
    GridBehaviour gridState ∧
    ceilSqrt (selectedExisting gridState).length = 2 ∧
    (alignNodes .grid gridState).nodes =
      [{ id := 1, type := .image, assetId := none, url := none,
         x := 0, y := 0, width := 100, height := 100, rotation := 0,
         opacity := 1, locked := false, zIndex := 0 },
       { id := 2, type := .image, assetId := none, url := none,
         x := 120, y := 0, width := 100, height := 100, rotation := 0,
         opacity := 1, locked := false, zIndex := 1 },
       { id := 3, type := .image, assetId := none, url := none,
         x := 0, y := 120, width := 100, height := 100, rotation := 0,
         opacity := 1, locked := false, zIndex := 2 },
       { id := 4, type := .image, assetId := none, url := none,
         x := 120, y := 120, width := 100, height := 100, rotation := 0,
         opacity := 1, locked := false, zIndex := 3 }] :=
  ⟨c3_grid_arrangement gridState (by decide) (by decide), by decide⟩

/-! ### Scene reconciliation (claim C9) -/

/-- The realized state of a fabric object the reconciliation pass reads
and writes: transform, opacity, content reference (`src`, `""` when
unset) and selectability. -/
structure Drawable where
  left : ℚ
  top : ℚ
  width : ℚ
  height : ℚ
  scaleX : ℚ
  scaleY : ℚ
  angle : ℚ
  opacity : ℚ
  src : String
  selectable : Bool
deriving DecidableEq, Inhabited

/-- The drawable mutations a reconciliation pass can perform:
`canvas.remove`, in-place `set`/`setCoords` (plus an async `setSrc`
reload when the url changed), and starting an asynchronous
`loadImageWithCORS` for a node with no drawable yet. -/
inductive DrawMutation where
  | removeObj (id : Nat)
  | updateObj (id : Nat)
  | beginLoad (id : Nat) (url : String)
deriving DecidableEq, Inhabited

/-- `existingObj.width || 1`. -/
def effWidth (d : Drawable) : ℚ := if d.width = 0 then 1 else d.width

/-- `existingObj.height || 1`. -/
def effHeight (d : Drawable) : ℚ := if d.height = 0 then 1 else d.height

/-- `existingObj.scaleX || 1`. -/
def effScaleX (d : Drawable) : ℚ := if d.scaleX = 0 then 1 else d.scaleX

/-- `existingObj.scaleY || 1`. -/
def effScaleY (d : Drawable) : ℚ := if d.scaleY = 0 then 1 else d.scaleY

/-- `existingObj.opacity || 1` (note: a realized opacity of 0 reads back
as 1, one of the reasons idempotence needs `opacity ≠ 0`). -/
def effOpacity (d : Drawable) : ℚ := if d.opacity = 0 then 1 else d.opacity

/-- The epsilon comparison of the sync pass:
`positionChanged || sizeChanged || rotationChanged || opacityChanged ||
urlChanged`, with 0.1 px on position and realized size, 0.1 degrees on
rotation, 0.01 on realized opacity, and strict string-vs-url comparison
(`get('src') || ''` against the possibly absent `node.url`). -/
def drawableChanged (n : CanvasNode) (d : Drawable) : Prop :=
  (1 / 10 : ℚ) < |d.left - n.x| ∨
  (1 / 10 : ℚ) < |d.top - n.y| ∨
  (1 / 10 : ℚ) < |effWidth d * effScaleX d - n.width| ∨
  (1 / 10 : ℚ) < |effHeight d * effScaleY d - n.height| ∨
  (1 / 10 : ℚ) < |d.angle - n.rotation| ∨
  (1 / 100 : ℚ) < |effOpacity d - n.opacity| ∨
  n.url ≠ some d.src

instance (n : CanvasNode) (d : Drawable) : Decidable (drawableChanged n d) := by
  unfold drawableChanged
  infer_instance

/-- The `existingObj.set(updates)` write of the sync pass: position,
scale factors recomputed against the realized base size, rotation,
opacity, selectability, and (for an image whose url changed) the new
content reference. -/
def applyDrawableUpdate (n : CanvasNode) (d : Drawable) : Drawable :=
  { d with
    left := n.x
    top := n.y
    scaleX := n.width / effWidth d
    scaleY := n.height / effHeight d
    angle := n.rotation
    opacity := n.opacity
    selectable := !n.locked
    src :=
      if n.url ≠ some d.src ∧ n.type = NodeKind.image then n.url.getD ""
      else d.src }

/-- Whether the add branch starts an asynchronous image load:
`node.type === 'image' && node.url` plus the explicit
`'undefined'`/`'null'` url validation. -/
def loadable (n : CanvasNode) : Bool :=
  decide (n.type = NodeKind.image) &&
    (match n.url with
     | none => false
     | some u => !(u = "" || u = "undefined" || u = "null"))

/-- `objectMap.get(node.id)`: look the node id up in the object map. -/
def mapLookup (i : Nat) : List (Nat × Drawable) → Option Drawable
  | [] => none
  | (k, v) :: m => if k = i then some v else mapLookup i m

/-- One `nodes.forEach` step of the sync pass: update an existing drawable
only when the epsilon comparison reports a change; begin an asynchronous
load for a loadable node with no drawable (the object map is only updated
when the load completes, which is what breaks idempotence mid-flight). -/
def syncStep (p : List DrawMutation × List (Nat × Drawable))
    (n : CanvasNode) : List DrawMutation × List (Nat × Drawable) :=
  match mapLookup n.id p.2 with
  | some d =>
      if drawableChanged n d then
        (p.1 ++ [DrawMutation.updateObj n.id],
         p.2.map fun q => if q.1 = n.id then (q.1, applyDrawableUpdate n d) else q)
      else p
  | none =>
      if loadable n then
        (p.1 ++ [DrawMutation.beginLoad n.id (n.url.getD "")], p.2)
      else p

/-- One full reconciliation pass (the `nodes` sync effect of Canvas.tsx):
remove every drawable whose node is gone, then walk the nodes adding or
updating; returns the emitted drawable mutations and the resulting object
map. -/
def syncPass (nodes : List CanvasNode) (m : List (Nat × Drawable)) :
    List DrawMutation × List (Nat × Drawable) :=
  let nodeIds := nodes.map fun n => n.id
  let removed := (m.filter fun q => !(nodeIds.contains q.1)).map
    fun q => DrawMutation.removeObj q.1
  let m1 := m.filter fun q => nodeIds.contains q.1
  nodes.foldl syncStep (removed, m1)

theorem drawableChanged_applyUpdate_false (n : CanvasNode) (d : Drawable)
    (himg : n.type = NodeKind.image) (hurl : ∃ u, n.url = some u)
    (hw : n.width ≠ 0) (hh : n.height ≠ 0) (hop : n.opacity ≠ 0) :
    ¬ drawableChanged n (applyDrawableUpdate n d) := by
  obtain ⟨u, hu⟩ := hurl
  have heffw : effWidth d ≠ 0 := by
    unfold effWidth
    by_cases h : d.width = 0
    · rw [if_pos h]
      norm_num
    · rw [if_neg h]
      exact h
  have heffh : effHeight d ≠ 0 := by
    unfold effHeight
    by_cases h : d.height = 0
    · rw [if_pos h]
      norm_num
    · rw [if_neg h]
      exact h
  have hwreal : effWidth (applyDrawableUpdate n d) *
      effScaleX (applyDrawableUpdate n d) = n.width := by
    have h1 : effWidth (applyDrawableUpdate n d) = effWidth d := rfl
    have h2 : effScaleX (applyDrawableUpdate n d) = n.width / effWidth d := by
      unfold effScaleX
      have hsx : (applyDrawableUpdate n d).scaleX = n.width / effWidth d := rfl
      rw [hsx, if_neg (div_ne_zero hw heffw)]
    rw [h1, h2, mul_comm, div_mul_cancel₀ _ heffw]
  have hhreal : effHeight (applyDrawableUpdate n d) *
      effScaleY (applyDrawableUpdate n d) = n.height := by
    have h1 : effHeight (applyDrawableUpdate n d) = effHeight d := rfl
    have h2 : effScaleY (applyDrawableUpdate n d) = n.height / effHeight d := by
      unfold effScaleY
      have hsy : (applyDrawableUpdate n d).scaleY = n.height / effHeight d := rfl
      rw [hsy, if_neg (div_ne_zero hh heffh)]
    rw [h1, h2, mul_comm, div_mul_cancel₀ _ heffh]
  have hopreal : effOpacity (applyDrawableUpdate n d) = n.opacity := by
    unfold effOpacity
    have ho : (applyDrawableUpdate n d).opacity = n.opacity := rfl
    rw [ho, if_neg hop]
  have hsrc : n.url = some (applyDrawableUpdate n d).src := by
    have hs : (applyDrawableUpdate n d).src =
        if n.url ≠ some d.src ∧ n.type = NodeKind.image then n.url.getD ""
        else d.src := rfl
    rw [hs]
    by_cases hc : n.url ≠ some d.src ∧ n.type = NodeKind.image
    · rw [if_pos hc, hu]
      rfl
    · rw [if_neg hc]
      by_cases hne : n.url = some d.src
      · exact hne
      · exact absurd ⟨hne, himg⟩ hc
  intro hch
  rcases hch with h | h | h | h | h | h | h
  · rw [show (applyDrawableUpdate n d).left = n.x from rfl, sub_self,
      abs_zero] at h
    exact absurd h (by norm_num)
  · rw [show (applyDrawableUpdate n d).top = n.y from rfl, sub_self,
      abs_zero] at h
    exact absurd h (by norm_num)
  · rw [hwreal, sub_self, abs_zero] at h
    exact absurd h (by norm_num)
  · rw [hhreal, sub_self, abs_zero] at h
    exact absurd h (by norm_num)
  · rw [show (applyDrawableUpdate n d).angle = n.rotation from rfl, sub_self,
      abs_zero] at h
    exact absurd h (by norm_num)
  · rw [hopreal, sub_self, abs_zero] at h
    exact absurd h (by norm_num)
  · exact h hsrc

theorem mapLookup_cons (i : Nat) (q : Nat × Drawable)
    (m : List (Nat × Drawable)) :
    mapLookup i (q :: m) = if q.1 = i then some q.2 else mapLookup i m := rfl

theorem mapLookup_mapSet_self (m : List (Nat × Drawable)) (i : Nat)
    (v : Drawable) :
    mapLookup i (m.map fun q => if q.1 = i then (q.1, v) else q) =
      (mapLookup i m).map fun _ => v := by
  induction m with
  | nil => rfl
  | cons q m ih =>
      by_cases hk : q.1 = i
      · rw [List.map_cons, if_pos hk, mapLookup_cons, mapLookup_cons]
        dsimp only
        rw [if_pos hk, if_pos hk]
        rfl
      · rw [List.map_cons, if_neg hk, mapLookup_cons, mapLookup_cons]
        rw [if_neg hk, if_neg hk]
        exact ih

theorem mapLookup_mapSet_ne (m : List (Nat × Drawable)) (i j : Nat)
    (v : Drawable) (h : j ≠ i) :
    mapLookup j (m.map fun q => if q.1 = i then (q.1, v) else q) =
      mapLookup j m := by
  induction m with
  | nil => rfl
  | cons q m ih =>
      by_cases hk : q.1 = i
      · have hkj : ¬ q.1 = j := by
          rw [hk]
          intro hEq
          exact h hEq.symm
        rw [List.map_cons, if_pos hk, mapLookup_cons, mapLookup_cons]
        dsimp only
        rw [if_neg hkj, if_neg hkj]
        exact ih
      · by_cases hkj : q.1 = j
        · rw [List.map_cons, if_neg hk, mapLookup_cons, mapLookup_cons]
          rw [if_pos hkj, if_pos hkj]
        · rw [List.map_cons, if_neg hk, mapLookup_cons, mapLookup_cons]
          rw [if_neg hkj, if_neg hkj]
          exact ih

theorem mapLookup_filter_key (p : Nat → Bool) (m : List (Nat × Drawable))
    (k : Nat) (hk : p k = true) :
    mapLookup k (m.filter fun q => p q.1) = mapLookup k m := by
  induction m with
  | nil => rfl
  | cons q m ih =>
      obtain ⟨a, b⟩ := q
      by_cases hpa : p a = true
      · rw [show ((a, b) :: m).filter (fun q => p q.1) =
            (a, b) :: m.filter (fun q => p q.1) from by
          simp [List.filter_cons, hpa]]
        by_cases hak : a = k
        · simp only [mapLookup, if_pos hak]
        · simp only [mapLookup, if_neg hak, ih]
      · rw [show ((a, b) :: m).filter (fun q => p q.1) =
            m.filter (fun q => p q.1) from by
          simp [List.filter_cons, hpa]]
        have hak : ¬ a = k := by
          intro hEq
          rw [hEq] at hpa
          exact hpa hk
        simp only [mapLookup, if_neg hak, ih]

theorem syncStep_some (p : List DrawMutation × List (Nat × Drawable))
    (n : CanvasNode) (d : Drawable) (h : mapLookup n.id p.2 = some d) :
    syncStep p n =
      if drawableChanged n d then
        (p.1 ++ [DrawMutation.updateObj n.id],
         p.2.map fun q => if q.1 = n.id then (q.1, applyDrawableUpdate n d) else q)
      else p := by
  unfold syncStep
  rw [h]

theorem syncStep_none (p : List DrawMutation × List (Nat × Drawable))
    (n : CanvasNode) (h : mapLookup n.id p.2 = none) :
    syncStep p n =
      if loadable n then
        (p.1 ++ [DrawMutation.beginLoad n.id (n.url.getD "")], p.2)
      else p := by
  unfold syncStep
  rw [h]

theorem syncStep_keys (p : List DrawMutation × List (Nat × Drawable))
    (n : CanvasNode) :
    ((syncStep p n).2).map (fun q => q.1) = p.2.map (fun q => q.1) := by
  cases hml : mapLookup n.id p.2 with
  | none =>
      rw [syncStep_none p n hml]
      by_cases hl : loadable n
      · rw [if_pos hl]
      · rw [if_neg hl]
  | some d =>
      rw [syncStep_some p n d hml]
      by_cases hch : drawableChanged n d
      · rw [if_pos hch]
        show (p.2.map _).map _ = _
        rw [List.map_map]
        apply List.map_congr_left
        intro q _
        by_cases hq : q.1 = n.id
        · simp only [Function.comp_apply, if_pos hq]
        · simp only [Function.comp_apply, if_neg hq]
      · rw [if_neg hch]

theorem syncFold_keys (nodes : List CanvasNode) :
    ∀ p : List DrawMutation × List (Nat × Drawable),
    ((nodes.foldl syncStep p).2).map (fun q => q.1) =
      p.2.map (fun q => q.1) := by
  induction nodes with
  | nil => intro p; rfl
  | cons n nodes ih =>
      intro p
      simp only [List.foldl_cons]
      rw [ih, syncStep_keys]

theorem syncStep_lookup_ne (p : List DrawMutation × List (Nat × Drawable))
    (n : CanvasNode) (k : Nat) (h : n.id ≠ k) :
    mapLookup k ((syncStep p n).2) = mapLookup k p.2 := by
  cases hml : mapLookup n.id p.2 with
  | none =>
      rw [syncStep_none p n hml]
      by_cases hl : loadable n
      · rw [if_pos hl]
      · rw [if_neg hl]
  | some d =>
      rw [syncStep_some p n d hml]
      by_cases hch : drawableChanged n d
      · rw [if_pos hch]
        exact mapLookup_mapSet_ne p.2 n.id k _ fun hEq => h hEq.symm
      · rw [if_neg hch]

theorem syncFold_lookup_not_mem (nodes : List CanvasNode) :
    ∀ (p : List DrawMutation × List (Nat × Drawable)) (k : Nat),
    (∀ n ∈ nodes, n.id ≠ k) →
    mapLookup k ((nodes.foldl syncStep p).2) = mapLookup k p.2 := by
  induction nodes with
  | nil => intro p k _; rfl
  | cons n nodes ih =>
      intro p k h
      simp only [List.foldl_cons]
      rw [ih _ k fun m hm => h m (List.mem_cons_of_mem n hm),
        syncStep_lookup_ne _ _ _ (h n (List.mem_cons_self n nodes))]

theorem syncFold_lookup (nodes : List CanvasNode) :
    ∀ (p : List DrawMutation × List (Nat × Drawable)) (n : CanvasNode),
    n ∈ nodes → ((nodes.map fun q => q.id).Nodup) →
    mapLookup n.id ((nodes.foldl syncStep p).2) =
      match mapLookup n.id p.2 with
      | none => none
      | some d =>
          some (if drawableChanged n d then applyDrawableUpdate n d else d) := by
  induction nodes with
  | nil => intro p n hn _; exact absurd hn (List.not_mem_nil n)
  | cons q nodes ih =>
      intro p n hn hnd
      simp only [List.map_cons, List.nodup_cons] at hnd
      obtain ⟨hq, hnd'⟩ := hnd
      simp only [List.foldl_cons]
      rcases List.mem_cons.mp hn with rfl | hn'
      · have hrest : ∀ m ∈ nodes, m.id ≠ n.id := by
          intro m hm hEq
          apply hq
          rw [← hEq]
          exact List.mem_map_of_mem _ hm
        rw [syncFold_lookup_not_mem nodes _ _ hrest]
        cases hml : mapLookup n.id p.2 with
        | none =>
            rw [syncStep_none p n hml]
            by_cases hl : loadable n
            · rw [if_pos hl]
              exact hml
            · rw [if_neg hl]
              exact hml
        | some d =>
            rw [syncStep_some p n d hml]
            by_cases hch : drawableChanged n d
            · rw [if_pos hch]
              show mapLookup n.id (p.2.map _) = _
              rw [mapLookup_mapSet_self, hml]
              show some (applyDrawableUpdate n d) =
                some (if drawableChanged n d then applyDrawableUpdate n d else d)
              rw [if_pos hch]
            · rw [if_neg hch, hml]
              show some d =
                some (if drawableChanged n d then applyDrawableUpdate n d else d)
              rw [if_neg hch]
      · have hne : q.id ≠ n.id := by
          intro hEq
          apply hq
          rw [hEq]
          exact List.mem_map_of_mem _ hn'
        rw [ih (syncStep p q) n hn' hnd',
          syncStep_lookup_ne _ _ _ hne]

theorem syncFold_noop (nodes : List CanvasNode) :
    ∀ p : List DrawMutation × List (Nat × Drawable),
    (∀ n ∈ nodes,
      match mapLookup n.id p.2 with
      | some d => ¬ drawableChanged n d
      | none => loadable n = false) →
    nodes.foldl syncStep p = p := by
  induction nodes with
  | nil => intro p _; rfl
  | cons q nodes ih =>
      intro p h
      have hq := h q (List.mem_cons_self q nodes)
      have hstep : syncStep p q = p := by
        cases hml : mapLookup q.id p.2 with
        | none =>
            rw [hml] at hq
            rw [syncStep_none p q hml,
              if_neg (by rw [hq]; exact Bool.false_ne_true)]
        | some d =>
            rw [hml] at hq
            rw [syncStep_some p q d hml, if_neg hq]
      simp only [List.foldl_cons, hstep]
      exact ih p fun n hn => h n (List.mem_cons_of_mem q hn)

/-- C9 counterexample: with a single loadable image node and an empty
object map (its asynchronous load still in flight), the first pass begins
a load, and a second pass with no intervening state change begins the same
load again — a nonzero drawable mutation, because the object map is only
populated when a load completes and nothing marks a load as pending. -/
theorem c9_reconciler_idempotence_counterexample :
    (syncPass
        [{ id := 0, type := .image, assetId := none, url := some "u",
           x := 0, y := 0, width := 100, height := 100, rotation := 0,
           opacity := 1, locked := false, zIndex := 0 }] []).1 =
      [DrawMutation.beginLoad 0 "u"] ∧
    (syncPass
        [{ id := 0, type := .image, assetId := none, url := some "u",
           x := 0, y := 0, width := 100, height := 100, rotation := 0,
           opacity := 1, locked := false, zIndex := 0 }]
        (syncPass
          [{ id := 0, type := .image, assetId := none, url := some "u",
             x := 0, y := 0, width := 100, height := 100, rotation := 0,
             opacity := 1, locked := false, zIndex := 0 }] []).2).1 ≠ [] := by
  decide

/-- C9 (amended): a reconciliation pass is idempotent — a second pass with
no intervening state change emits zero drawable mutations — provided no
image load is in flight (every node without a drawable is not loadable)
and every node backed by a drawable is an image with a url and non-zero
width, height and opacity (the `|| 1` fallbacks on realized scale and
opacity make zero values re-trigger updates forever). -/
theorem c9_reconciler_idempotent (nodes : List CanvasNode)
    (m : List (Nat × Drawable))
    (hnd : (nodes.map fun n => n.id).Nodup)
    (hpend : ∀ n ∈ nodes, mapLookup n.id m = none → loadable n = false)
    (hgood : ∀ n ∈ nodes, ∀ d, mapLookup n.id m = some d →
      n.type = NodeKind.image ∧ (∃ u, n.url = some u) ∧
      n.width ≠ 0 ∧ n.height ≠ 0 ∧ n.opacity ≠ 0) :
    (syncPass nodes (syncPass nodes m).2).1 = [] := by
  have hkeys : ((syncPass nodes m).2).map (fun q => q.1) =
      (m.filter fun q => (nodes.map fun n => n.id).contains q.1).map
        (fun q => q.1) := by
    show ((nodes.foldl syncStep _).2).map _ = _
    exact syncFold_keys nodes _
  have hsub : ∀ q ∈ (syncPass nodes m).2,
      (nodes.map fun n => n.id).contains q.1 = true := by
    intro q hq
    have hmem : q.1 ∈ ((syncPass nodes m).2).map (fun q => q.1) :=
      List.mem_map_of_mem _ hq
    rw [hkeys] at hmem
    obtain ⟨q', hq', hq'eq⟩ := List.mem_map.mp hmem
    have := List.of_mem_filter hq'
    rw [← hq'eq]
    exact this
  have hrem : ((syncPass nodes m).2).filter
      (fun q => !((nodes.map fun n => n.id).contains q.1)) = [] := by
    rw [List.filter_eq_nil_iff]
    intro q hq
    rw [hsub q hq]
    simp
  have hkeep : ((syncPass nodes m).2).filter
      (fun q => (nodes.map fun n => n.id).contains q.1) = (syncPass nodes m).2 := by
    rw [List.filter_eq_self]
    exact hsub
  have hm1 : ∀ n ∈ nodes,
      mapLookup n.id (m.filter fun q => (nodes.map fun n => n.id).contains q.1) =
        mapLookup n.id m := by
    intro n hn
    apply mapLookup_filter_key
    have : n.id ∈ nodes.map fun n => n.id := List.mem_map_of_mem _ hn
    exact List.elem_eq_true_of_mem this
  have hnoop : ∀ n ∈ nodes,
      match mapLookup n.id ((syncPass nodes m).2) with
      | some d => ¬ drawableChanged n d
      | none => loadable n = false := by
    intro n hn
    have hl2 : mapLookup n.id ((syncPass nodes m).2) =
        match mapLookup n.id
            (m.filter fun q => (nodes.map fun n => n.id).contains q.1) with
        | none => none
        | some d =>
            some (if drawableChanged n d then applyDrawableUpdate n d else d) := by
      show mapLookup n.id ((nodes.foldl syncStep _).2) = _
      exact syncFold_lookup nodes _ n hn hnd
    rw [hm1 n hn] at hl2
    cases hml : mapLookup n.id m with
    | none =>
        rw [hml] at hl2
        have hl2n : mapLookup n.id ((syncPass nodes m).2) = none := hl2
        rw [hl2n]
        exact hpend n hn hml
    | some d =>
        obtain ⟨himg, hurl, hw, hh, hop⟩ := hgood n hn d hml
        rw [hml] at hl2
        have hl2s : mapLookup n.id ((syncPass nodes m).2) =
            some (if drawableChanged n d then applyDrawableUpdate n d else d) :=
          hl2
        by_cases hch : drawableChanged n d
        · rw [if_pos hch] at hl2s
          rw [hl2s]
          exact drawableChanged_applyUpdate_false n d himg hurl hw hh hop
        · rw [if_neg hch] at hl2s
          rw [hl2s]
          exact hch
  show (List.foldl syncStep
      ((((syncPass nodes m).2).filter
          (fun q => !((nodes.map fun n => n.id).contains q.1))).map
        (fun q => DrawMutation.removeObj q.1),
       ((syncPass nodes m).2).filter
        (fun q => (nodes.map fun n => n.id).contains q.1)) nodes).1 = []
  rw [hrem, hkeep]
  simp only [List.map_nil]
  rw [syncFold_noop nodes ([], (syncPass nodes m).2) hnoop]

/-- A concrete image node with a materialized drawable. -/
def syncNode : CanvasNode :=
  { id := 0, type := .image, assetId := none, url := some "u", x := 5, y := 6,
    width := 100, height := 50, rotation := 0, opacity := 1, locked := false,
    zIndex := 0 }

/-- The object map realizing `syncNode` exactly. -/
def syncMap : List (Nat × Drawable) :=
  [(0, { left := 5, top := 6, width := 100, height := 50, scaleX := 1,
         scaleY := 1, angle := 0, opacity := 1, src := "u",
         selectable := true })]

/-- Witness for C9 at a concrete materialized node: the second pass emits
no drawable mutation. -/
theorem c9_reconciler_idempotent_witness :
    (syncPass [syncNode] (syncPass [syncNode] syncMap).2).1 = [] :=
  c9_reconciler_idempotent [syncNode] syncMap (by decide)
    (by
      intro n hn hml
      rcases List.mem_singleton.mp hn with rfl
      exact absurd hml (by decide))
    (by
      intro n hn d hml
      rcases List.mem_singleton.mp hn with rfl
      exact ⟨rfl, ⟨"u", rfl⟩, by decide, by decide, by decide⟩)
